import Mathlib

/-!
Verification of the ALPR system's vehicle-tracking, trigger-zone and
camera-manager services, shallowly embedded from
`backend/app/services/trigger_zone.py`,
`backend/app/services/vehicle_tracker.py` and
`backend/app/services/camera_manager.py`.

Conventions of the embedding:
* Python floats are modelled as exact rationals (`ℚ`); the only real-valued
  computation (the best-shot score, which uses a square root in a
  non-monotone position) is modelled over `ℝ` with `Real.sqrt`.
* `numpy` centroid distances feed only into order comparisons
  (`np.argmin` selection and the `> max_distance` threshold), so the
  distance matrix is embedded as the matrix of *squared* Euclidean
  distances and the threshold as `max_distance ^ 2`; the square root is
  strictly monotone on nonnegatives, so the embedded matcher selects
  exactly the pairs the source selects.
* `time.time()` is modelled by an explicit `now : ℚ` parameter threaded
  through each update.
* Python `dict` (insertion ordered) is modelled as an association list
  with keys in insertion order.
-/

namespace Alpr

/-- Planar point, from the `Point` dataclass of `trigger_zone.py`. -/
structure Point where
  x : ℚ
  y : ℚ
  deriving DecidableEq, Repr

/-- Bounding box in xyxy format, from the `BBox` dataclass of `trigger_zone.py`. -/
structure BBox where
  x1 : ℚ
  y1 : ℚ
  x2 : ℚ
  y2 : ℚ
  deriving DecidableEq, Repr

/-- `BBox.center` property. -/
def BBox.center (b : BBox) : Point :=
  ⟨(b.x1 + b.x2) / 2, (b.y1 + b.y2) / 2⟩

/-- `BBox.bottom_center` property (where the vehicle touches the ground). -/
def BBox.bottom_center (b : BBox) : Point :=
  ⟨(b.x1 + b.x2) / 2, b.y2⟩

/-- `BBox.area` property. -/
def BBox.area (b : BBox) : ℚ :=
  (b.x2 - b.x1) * (b.y2 - b.y1)

/-- The inner `cross(o, a, b)` helper of `TriggerZone.line_crosses_zone`. -/
def cross (o a b : ℚ × ℚ) : ℚ :=
  (a.1 - o.1) * (b.2 - o.2) - (a.2 - o.2) * (b.1 - o.1)

/-- The inner `_segments_intersect` helper of `TriggerZone.line_crosses_zone`:
a strict straddling test, true only for proper crossings (touching or
collinear contact yields `false`). -/
def segments_intersect (a1 a2 b1 b2 : ℚ × ℚ) : Bool :=
  let d1 := cross b1 b2 a1
  let d2 := cross b1 b2 a2
  let d3 := cross a1 a2 b1
  let d4 := cross a1 a2 b2
  ((d1 > 0 ∧ d2 < 0) ∨ (d1 < 0 ∧ d2 > 0)) ∧ ((d3 > 0 ∧ d4 < 0) ∨ (d3 < 0 ∧ d4 > 0))

/-- The cyclic edge list `(pts[i], pts[(i+1) % n])` of a polygon's vertex list. -/
def polygonEdges (pts : List (ℚ × ℚ)) : List ((ℚ × ℚ) × (ℚ × ℚ)) :=
  pts.zip (pts.rotate 1)

/-- Mathematical segment intersection: the two closed segments share a point.
Used only to state claims about `line_crosses_zone`, never as executable code. -/
def SegIntersects (a1 a2 b1 b2 : ℚ × ℚ) : Prop :=
  ∃ t u : ℚ, 0 ≤ t ∧ t ≤ 1 ∧ 0 ≤ u ∧ u ≤ 1 ∧
    a1.1 + t * (a2.1 - a1.1) = b1.1 + u * (b2.1 - b1.1) ∧
    a1.2 + t * (a2.2 - a1.2) = b1.2 + u * (b2.2 - b1.2)

/-- Point `p` lies on the closed segment from `a` to `b`
(collinear and inside the bounding interval). -/
def onSegment (p a b : ℚ × ℚ) : Bool :=
  cross a b p = 0 ∧
    ((a.1 ≤ p.1 ∧ p.1 ≤ b.1) ∨ (b.1 ≤ p.1 ∧ p.1 ≤ a.1)) ∧
    ((a.2 ≤ p.2 ∧ p.2 ≤ b.2) ∨ (b.2 ≤ p.2 ∧ p.2 ≤ a.2))

/-- Point `p` lies on the boundary of the polygon with vertex list `pts`. -/
def onPolygonBoundary (pts : List (ℚ × ℚ)) (p : ℚ × ℚ) : Bool :=
  (polygonEdges pts).any fun e => onSegment p e.1 e.2

/-- One step of the even-odd rule: the horizontal ray from `p` towards `+x`
crosses the (half-open) edge from `a` to `b`; when the y-range condition
holds, `b.2 - a.2 ≠ 0`, so the division is the genuine x-intersection. -/
def rayCrossesEdge (p a b : ℚ × ℚ) : Bool :=
  ((a.2 ≤ p.2 ∧ p.2 < b.2) ∨ (b.2 ≤ p.2 ∧ p.2 < a.2)) ∧
    p.1 < a.1 + (p.2 - a.2) * (b.1 - a.1) / (b.2 - a.2)

/-- Number of polygon edges crossed by the rightward horizontal ray from `p`. -/
def rayCrossCount (pts : List (ℚ × ℚ)) (p : ℚ × ℚ) : ℕ :=
  ((polygonEdges pts).filter fun e => rayCrossesEdge p e.1 e.2).length

/-- Point `p` is strictly inside the polygon `pts` (even-odd rule, boundary
points excluded). -/
def strictlyInside (pts : List (ℚ × ℚ)) (p : ℚ × ℚ) : Bool :=
  ¬ onPolygonBoundary pts p ∧ rayCrossCount pts p % 2 = 1

/-- Modelled from the documented semantics of OpenCV's `cv2.pointPolygonTest`
with `measureDist=False` (the repository calls into OpenCV here, whose source
is not part of the repo): returns `+1` when the point is strictly inside the
polygon, `0` when it lies exactly on an edge, and `-1` when it is outside. -/
def pointPolygonTest (pts : List (ℚ × ℚ)) (p : ℚ × ℚ) : Int :=
  if onPolygonBoundary pts p then 0
  else if strictlyInside pts p then 1
  else -1

/-- A trigger zone: the stored vertex list (rectangles are expanded to their
four corners by the constructor) and the zone type string. -/
structure TriggerZone where
  points : List (ℚ × ℚ)
  zone_type : String
  deriving DecidableEq, Repr

/-- The `TriggerZone.__init__` constructor: expands a two-point rectangle to
its four corners and rejects rectangles that do not have exactly two points
(the Python `ValueError` is modelled as `Except.error`). -/
def mkTriggerZone (points : List (ℚ × ℚ)) (zone_type : String) :
    Except String TriggerZone :=
  if zone_type = "rectangle" then
    match points with
    | [(x1, y1), (x2, y2)] =>
        .ok ⟨[(x1, y1), (x2, y1), (x2, y2), (x1, y2)], zone_type⟩
    | _ => .error "Rectangle zone requires exactly 2 points"
  else
    .ok ⟨points, zone_type⟩

/-- `TriggerZone.contains_point`: the OpenCV point-polygon test result is
nonnegative, i.e. inside or on the boundary. -/
def TriggerZone.contains_point (z : TriggerZone) (p : Point) : Bool :=
  0 ≤ pointPolygonTest z.points (p.x, p.y)

/-- `TriggerZone.get_bottom_center`. -/
def TriggerZone.get_bottom_center (_z : TriggerZone) (b : BBox) : Point :=
  b.bottom_center

/-- `TriggerZone.contains_bbox`: delegates to `contains_point` on the bbox's
bottom-center; the `threshold` argument is deprecated and unused in the source. -/
def TriggerZone.contains_bbox (z : TriggerZone) (b : BBox) (_threshold : ℚ := 0) : Bool :=
  z.contains_point (z.get_bottom_center b)

/-- `TriggerZone.line_crosses_zone`: the segment `p1 → p2` strictly straddles
some edge of the polygon (early-returning loop modelled with `List.any`). -/
def TriggerZone.line_crosses_zone (z : TriggerZone) (p1 p2 : ℚ × ℚ) : Bool :=
  (polygonEdges z.points).any fun e => segments_intersect p1 p2 e.1 e.2

/-! ## Vehicle tracker (`vehicle_tracker.py`) -/

/-- Python's two-argument `max(a, b)`: returns `a` when `a ≥ b`, else `b`
(spelled out so the kernel can evaluate it on concrete rationals). -/
def pymax (a b : ℚ) : ℚ :=
  if b ≤ a then a else b

/-- The `VehicleState` string enum. -/
inductive VehicleState where
  | IDLE
  | ENTERING_ZONE
  | IN_ZONE
  | PROCESSING
  | PROCESSED
  | EXITING_ZONE
  | EXITED
  deriving DecidableEq, Repr

/-- A video frame: only its shape (`shape[:2] = (height, width)`) and an
identity tag are observable by the tracker, so the pixel content is
abstracted to the tag. -/
structure Frame where
  height : ℚ
  width : ℚ
  tag : ℕ
  deriving DecidableEq, Repr

/-- Append on a `deque(maxlen := m)`: drop from the left when full. -/
def dequeAppend (m : ℕ) (xs : List α) (x : α) : List α :=
  if m ≤ xs.length then (xs ++ [x]).drop (xs.length + 1 - m) else xs ++ [x]

/-- The `VehicleTrack` dataclass.  The `best_shot_*` cache fields are omitted:
`get_best_shot` is modelled as a pure function of the histories and no claim
observes the cache. -/
structure VehicleTrack where
  track_id : ℕ
  state : VehicleState := .IDLE
  bbox_history : List BBox := []
  frame_history : List Frame := []
  confidence_history : List ℚ := []
  frames_in_zone : ℕ := 0
  frames_out_of_zone : ℕ := 0
  born_in_zone : Bool := false
  prev_bottom_center : Option (ℚ × ℚ) := none
  first_seen : ℚ
  last_seen : ℚ
  zone_entry_time : Option ℚ := none
  zone_exit_time : Option ℚ := none
  ocr_result : Option ℕ := none
  processing_started : Bool := false
  deriving DecidableEq, Repr

/-- `VehicleTrack.update`: save the previous bottom-center, append to the
three 30-long histories and refresh `last_seen`. -/
def VehicleTrack.update (t : VehicleTrack) (bbox : BBox) (frame : Frame)
    (confidence : ℚ) (now : ℚ) : VehicleTrack :=
  let t := match t.bbox_history.getLast? with
    | some prev => { t with prev_bottom_center := some ((prev.x1 + prev.x2) / 2, prev.y2) }
    | none => t
  { t with
    bbox_history := dequeAppend 30 t.bbox_history bbox
    frame_history := dequeAppend 30 t.frame_history frame
    confidence_history := dequeAppend 30 t.confidence_history confidence
    last_seen := now }

/-- `VehicleTrack.current_bbox`: most recent bounding box. -/
def VehicleTrack.current_bbox (t : VehicleTrack) : Option BBox :=
  t.bbox_history.getLast?

/-- The `VehicleTracker` object.  `tracks` is the insertion-ordered dict,
`pending` the `_pending_ready_tracks` list (tracks are recorded by id). -/
structure Tracker where
  next_track_id : ℕ := 0
  tracks : List (ℕ × VehicleTrack) := []
  max_disappeared : ℕ := 30
  max_distance : ℚ := 100
  min_frames_in_zone : ℕ := 3
  min_frames_out_of_zone : ℕ := 5
  fps : ℚ := 2
  pending : List ℕ := []
  deriving DecidableEq, Repr

/-- `VehicleTracker.__init__`: stores the parameters, clamping `fps` to at
least `0.1` to prevent division by zero in cleanup timing. -/
def mkTracker (max_disappeared : ℕ := 30) (max_distance : ℚ := 100)
    (min_frames_in_zone : ℕ := 3) (min_frames_out_of_zone : ℕ := 5)
    (fps : ℚ := 2) : Tracker :=
  { next_track_id := 0
    tracks := []
    max_disappeared := max_disappeared
    max_distance := max_distance
    min_frames_in_zone := min_frames_in_zone
    min_frames_out_of_zone := min_frames_out_of_zone
    fps := pymax fps (1/10)
    pending := [] }

/-- Look a track up by id (first match, as in a dict with unique keys). -/
def findTrack (i : ℕ) (ts : List (ℕ × VehicleTrack)) : Option VehicleTrack :=
  (ts.find? fun kt => kt.1 = i).map Prod.snd

/-- The track built by `VehicleTracker._register_new_track`: a fresh
`VehicleTrack` fed its first detection, marked born-in-zone (directly
`IN_ZONE`) when the zone contains the detection's bottom-center. -/
def newTrackFor (track_id : ℕ) (bbox : BBox) (frame : Frame) (confidence : ℚ)
    (zone : Option TriggerZone) (now : ℚ) : VehicleTrack :=
  let track : VehicleTrack :=
    VehicleTrack.update { track_id := track_id, first_seen := now, last_seen := now }
      bbox frame confidence now
  match zone with
  | some z =>
      if z.contains_bbox bbox 0 then
        { track with
          born_in_zone := true
          state := .IN_ZONE
          frames_in_zone := 1
          zone_entry_time := some now }
      else track
  | none => track

/-- `VehicleTracker._register_new_track`: insert the newly built track under
the next id and advance the id counter. -/
def Tracker.register_new_track (T : Tracker) (bbox : BBox) (frame : Frame)
    (confidence : ℚ) (zone : Option TriggerZone) (now : ℚ) : Tracker :=
  { T with
    tracks := T.tracks ++ [(T.next_track_id,
      newTrackFor T.next_track_id bbox frame confidence zone now)]
    next_track_id := T.next_track_id + 1 }

/-- Squared Euclidean distance between two points (see the header note on the
squared-distance embedding of the `numpy` distance matrix). -/
def sqDist (a b : ℚ × ℚ) : ℚ :=
  (a.1 - b.1) ^ 2 + (a.2 - b.2) ^ 2

/-- `VehicleTracker._compute_distances`: the pairwise matrix, rows indexed by
tracks and columns by detections (entries squared, threshold squared later). -/
def computeDistances (trackCentroids detCentroids : List (ℚ × ℚ)) : List (List ℚ) :=
  trackCentroids.map fun tc => detCentroids.map fun dc => sqDist tc dc

/-- Total number of entries of a matrix (`ndarray.size`). -/
def matrixSize (m : List (List ℚ)) : ℕ :=
  (m.map List.length).sum

/-- Index of the first minimum of a list (`np.argmin` on the flattened
matrix returns the first occurrence in row-major order). -/
def argminIdx (l : List ℚ) : ℕ :=
  (l.enum.foldl
    (fun best ix => if ix.2 < best.2 then ix else best)
    (0, l.headD 0)).1

/-- Entry lookup `m[i][j]` (both indices in range whenever used). -/
def matrixGet (m : List (List ℚ)) (i j : ℕ) : ℚ :=
  (m.getD i []).getD j 0

/-- `np.delete(m, i, axis=0)`. -/
def deleteRow (m : List (List ℚ)) (i : ℕ) : List (List ℚ) :=
  m.eraseIdx i

/-- `np.delete(m, j, axis=1)`. -/
def deleteCol (m : List (List ℚ)) (j : ℕ) : List (List ℚ) :=
  m.map fun row => row.eraseIdx j

/-- The greedy matching loop of `VehicleTracker._match_detections`; fuel is
the row count (each iteration deletes one row).  Mirrors the source exactly,
including that the matched detection index `det_idx` is the column index in
the *current, column-reduced* matrix, while `track_ids` is explicitly
re-filtered — the detection list is not. -/
def matchLoop (maxDistance : ℚ) :
    ℕ → List (List ℚ) → List ℕ → List ℕ × List ℕ
  | 0, _, _ => ([], [])
  | fuel + 1, distances, track_ids =>
      if matrixSize distances = 0 then ([], [])
      else
        let cols := (distances.headD []).length
        let flat := argminIdx distances.flatten
        let track_idx := flat / cols
        let det_idx := flat % cols
        if maxDistance ^ 2 < matrixGet distances track_idx det_idx then ([], [])
        else
          let rest := matchLoop maxDistance fuel
            (deleteCol (deleteRow distances track_idx) det_idx)
            (track_ids.eraseIdx track_idx)
          (track_ids.getD track_idx 0 :: rest.1, det_idx :: rest.2)

/-- `VehicleTracker._match_detections`: greedy matching, smallest squared
distance first, accepting while the entry is at most `max_distance ^ 2`. -/
def matchDetections (distances : List (List ℚ)) (track_ids : List ℕ)
    (maxDistance : ℚ) : List ℕ × List ℕ :=
  matchLoop maxDistance distances.length distances track_ids

/-- Update the track stored under key `i` (dict item assignment). -/
def modifyTrack (i : ℕ) (f : VehicleTrack → VehicleTrack)
    (ts : List (ℕ × VehicleTrack)) : List (ℕ × VehicleTrack) :=
  ts.map fun kt => if kt.1 = i then (kt.1, f kt.2) else kt

/-- One step of the `for track_id, det_idx in zip(...)` loop of `update`:
the matched track receives `detections[det_idx]`. -/
def applyMatchStep (detections : List (BBox × ℚ)) (frame : Frame) (now : ℚ)
    (acc : Tracker) (td : ℕ × ℕ) : Tracker :=
  match detections.get? td.2 with
  | some (bbox, conf) =>
      let ts := modifyTrack td.1 (fun t => t.update bbox frame conf now) acc.tracks
      { acc with tracks := ts }
  | none => acc

/-- The `for track_id, det_idx in zip(matched_tracks, matched_detections)`
loop of `update`. -/
def applyMatches (T : Tracker) (matched_tracks matched_detections : List ℕ)
    (detections : List (BBox × ℚ)) (frame : Frame) (now : ℚ) : Tracker :=
  (matched_tracks.zip matched_detections).foldl (applyMatchStep detections frame now) T

/-- One track's step of `_handle_disappeared_tracks`: increment the
disappeared counter and auto-transition an `IN_ZONE` track whose counter
reached the threshold, guarded by the one-way `processing_started` gate.
The boolean reports whether the track was appended to the pending list. -/
def disappearedStep (min_frames_out_of_zone : ℕ) (now : ℚ)
    (t : VehicleTrack) : VehicleTrack × Bool :=
  let t := { t with frames_out_of_zone := t.frames_out_of_zone + 1 }
  if t.state = .IN_ZONE ∧ min_frames_out_of_zone ≤ t.frames_out_of_zone ∧
      t.processing_started = false then
    ({ t with
        state := .PROCESSING
        zone_exit_time := some now
        processing_started := true }, true)
  else (t, false)

/-- The effective in-zone test of `_update_state_machine`: bottom-center
containment, with the line-crossing fallback for fast vehicles whose
bottom-center jumped over the zone between frames. -/
def effectiveInZone (z : TriggerZone) (t : VehicleTrack) (bb : BBox) : Bool :=
  let in_zone := z.contains_bbox bb 0
  if ¬ in_zone then
    match t.prev_bottom_center with
    | some pbc => z.line_crosses_zone pbc ((bb.x1 + bb.x2) / 2, bb.y2)
    | none => false
  else true

/-- One track's step of `_update_state_machine` (the per-track body of the
loop); the boolean reports an append to the pending list. -/
def stateMachineStep (min_frames_in_zone min_frames_out_of_zone : ℕ)
    (z : TriggerZone) (now : ℚ) (t : VehicleTrack) : VehicleTrack × Bool :=
  match t.current_bbox with
  | none => (t, false)
  | some bb =>
    let in_zone := effectiveInZone z t bb
    match t.state with
    | .IDLE =>
        if in_zone then
          ({ t with
              state := .ENTERING_ZONE
              frames_in_zone := 1
              zone_entry_time := some now }, false)
        else (t, false)
    | .ENTERING_ZONE =>
        if in_zone then
          let t := { t with frames_in_zone := t.frames_in_zone + 1 }
          if min_frames_in_zone ≤ t.frames_in_zone then
            ({ t with state := .IN_ZONE }, false)
          else (t, false)
        else ({ t with state := .IDLE, frames_in_zone := 0 }, false)
    | .IN_ZONE =>
        if in_zone then
          ({ t with
              frames_in_zone := t.frames_in_zone + 1
              frames_out_of_zone := 0 }, false)
        else
          let t := { t with frames_out_of_zone := t.frames_out_of_zone + 1 }
          if min_frames_out_of_zone ≤ t.frames_out_of_zone ∧
              t.processing_started = false then
            ({ t with
                state := .PROCESSING
                zone_exit_time := some now
                processing_started := true }, true)
          else (t, false)
    | .PROCESSING =>
        if t.ocr_result.isSome then ({ t with state := .PROCESSED }, false)
        else (t, false)
    | .PROCESSED => ({ t with state := .EXITED }, false)
    | .EXITING_ZONE => (t, false)
    | .EXITED => (t, false)

/-- One track's step of `_cleanup_old_tracks`: returns the (possibly
force-flushed) track, the pending-append flag and the removal flag. -/
def cleanupStep (max_disappeared_sec : ℚ) (now : ℚ)
    (t : VehicleTrack) : VehicleTrack × Bool × Bool :=
  if max_disappeared_sec < now - t.last_seen then
    if t.state = .IN_ZONE ∧ t.processing_started = false then
      ({ t with
          state := .PROCESSING
          zone_exit_time := some now
          processing_started := true }, true, true)
    else (t, false, true)
  else if t.state = .EXITED ∧ 5 < now - t.first_seen then (t, false, true)
  else (t, false, false)

/-- Run a per-track step over the whole dict, collecting the ids appended to
the pending list in iteration order. -/
def runPendPhase (f : VehicleTrack → VehicleTrack × Bool) :
    List (ℕ × VehicleTrack) → List (ℕ × VehicleTrack) × List ℕ
  | [] => ([], [])
  | (k, t) :: rest =>
      let (t', b) := f t
      let (ts, ps) := runPendPhase f rest
      ((k, t') :: ts, if b then k :: ps else ps)

/-- Run the cleanup step over the whole dict: collect pending appends during
the scan, then drop the tracks marked for removal (the source collects
`to_remove` and deletes afterwards). -/
def runCleanupPhase (f : VehicleTrack → VehicleTrack × Bool × Bool) :
    List (ℕ × VehicleTrack) → List (ℕ × VehicleTrack) × List ℕ
  | [] => ([], [])
  | (k, t) :: rest =>
      let (t', b, r) := f t
      let (ts, ps) := runCleanupPhase f rest
      (if r then ts else (k, t') :: ts, if b then k :: ps else ps)

/-- `VehicleTracker._handle_disappeared_tracks`. -/
def Tracker.handle_disappeared_tracks (T : Tracker) (now : ℚ) : Tracker :=
  let (ts, ps) := runPendPhase (disappearedStep T.min_frames_out_of_zone now) T.tracks
  { T with tracks := ts, pending := T.pending ++ ps }

/-- `VehicleTracker._update_state_machine` (no-op when no zone is set). -/
def Tracker.update_state_machine (T : Tracker) (zone : Option TriggerZone)
    (now : ℚ) : Tracker :=
  match zone with
  | none => T
  | some z =>
      let (ts, ps) := runPendPhase
        (stateMachineStep T.min_frames_in_zone T.min_frames_out_of_zone z now) T.tracks
      { T with tracks := ts, pending := T.pending ++ ps }

/-- The fps-aware cleanup timeout `max_disappeared / fps` used by
`_cleanup_old_tracks`. -/
def Tracker.max_disappeared_sec (T : Tracker) : ℚ :=
  (T.max_disappeared : ℚ) / T.fps

/-- `VehicleTracker._cleanup_old_tracks`. -/
def Tracker.cleanup_old_tracks (T : Tracker) (now : ℚ) : Tracker :=
  let (ts, ps) := runCleanupPhase (cleanupStep T.max_disappeared_sec now) T.tracks
  { T with tracks := ts, pending := T.pending ++ ps }

/-- The centroid of a track's current bbox (`current_bbox.center`; every
registered track has a nonempty history, so the default is unreachable from
a fresh tracker). -/
def trackCentroid (t : VehicleTrack) : ℚ × ℚ :=
  match t.current_bbox with
  | some b => (b.center.x, b.center.y)
  | none => (0, 0)

/-- The matching/registration block of `VehicleTracker.update` for a
non-empty detection list: register all detections when no tracks live,
otherwise match, update the matched tracks and register the unmatched
detections as new tracks. -/
def Tracker.matchPhase (T : Tracker) (detections : List (BBox × ℚ))
    (frame : Frame) (zone : Option TriggerZone) (now : ℚ) : Tracker :=
  if T.tracks = [] then
    detections.foldl
      (fun acc d => acc.register_new_track d.1 frame d.2 zone now) T
  else
    let track_ids := T.tracks.map Prod.fst
    let track_centroids := T.tracks.map fun kt => trackCentroid kt.2
    let detection_centroids := detections.map fun d => (d.1.center.x, d.1.center.y)
    let distances := computeDistances track_centroids detection_centroids
    let md := matchDetections distances track_ids T.max_distance
    let T' := applyMatches T md.1 md.2 detections frame now
    let unmatched := (List.range detections.length).filter fun j => ¬ j ∈ md.2
    unmatched.foldl
      (fun acc j =>
        match detections.get? j with
        | some d => acc.register_new_track d.1 frame d.2 zone now
        | none => acc)
      T'

/-- `VehicleTracker.update`: reset the pending list; on an empty detection
list, run only the disappearance path and return; otherwise run the
matching/registration block, then the state machine and the cleanup. -/
def Tracker.update (T : Tracker) (detections : List (BBox × ℚ)) (frame : Frame)
    (zone : Option TriggerZone) (now : ℚ) : Tracker :=
  let T := { T with pending := [] }
  if detections = [] then
    T.handle_disappeared_tracks now
  else
    let T := T.matchPhase detections frame zone now
    let T := T.update_state_machine zone now
    T.cleanup_old_tracks now

/-- `VehicleTracker.get_tracks_ready_for_processing`: drain the pending list. -/
def Tracker.get_tracks_ready_for_processing (T : Tracker) : List ℕ × Tracker :=
  (T.pending, { T with pending := [] })

/-- One `update()` call's inputs. -/
structure UpdateInput where
  detections : List (BBox × ℚ)
  frame : Frame
  zone : Option TriggerZone
  now : ℚ
  deriving DecidableEq, Repr

/-- Run a sequence of `update()` calls. -/
def runUpdates (T : Tracker) : List UpdateInput → Tracker
  | [] => T
  | inp :: rest => runUpdates (T.update inp.detections inp.frame inp.zone inp.now) rest

/-- The `processing_started` flag of the track with id `i`, if present. -/
def trackStarted (T : Tracker) (i : ℕ) : Option Bool :=
  (findTrack i T.tracks).map VehicleTrack.processing_started

/-- Total number of times id `i` is appended to the pending ready list over
a sequence of updates (the list is reset at the start of each update and
drained by `get_tracks_ready_for_processing`). -/
def totalAppends (T : Tracker) (inputs : List UpdateInput) (i : ℕ) : ℕ :=
  match inputs with
  | [] => 0
  | inp :: rest =>
      let T' := T.update inp.detections inp.frame inp.zone inp.now
      T'.pending.count i + totalAppends T' rest i

/-! ## Best-shot selection (`VehicleTrack.get_best_shot`)

The score mixes a square root non-monotonically with the other terms, so
this part of the embedding works over `ℝ` with `Real.sqrt`. -/

/-- The per-frame composite score of `get_best_shot`:
`0.5·normalized area + 0.3·confidence + 0.2·(1 − center distance / diagonal)`. -/
noncomputable def bestShotScore (frame_width frame_height : ℚ) (bbox : BBox)
    (conf : ℚ) : ℝ :=
  let fw : ℝ := (frame_width : ℝ)
  let fh : ℝ := (frame_height : ℝ)
  let area_score : ℝ := (bbox.area : ℝ) / (fw * fh)
  let center_dist : ℝ :=
    Real.sqrt (((bbox.center.x : ℝ) - fw / 2) ^ 2 + ((bbox.center.y : ℝ) - fh / 2) ^ 2)
  let max_dist : ℝ := Real.sqrt (fw ^ 2 + fh ^ 2)
  0.5 * area_score + 0.3 * (conf : ℝ) + 0.2 * (1 - center_dist / max_dist)

/-- One iteration of the selection loop of `get_best_shot`: replace the
running `(best_idx, best_score)` only on strict improvement. -/
noncomputable def bestShotStep (frame_width frame_height : ℚ)
    (best : ℕ × ℝ) (ib : ℕ × (BBox × ℚ)) : ℕ × ℝ :=
  if best.2 < bestShotScore frame_width frame_height ib.2.1 ib.2.2 then
    (ib.1, bestShotScore frame_width frame_height ib.2.1 ib.2.2)
  else best

/-- The `for idx, (bbox, conf) in enumerate(zip(...))` selection loop,
starting from `(best_idx, best_score) = (0, 0.0)`. -/
noncomputable def bestShotFold (frame_width frame_height : ℚ)
    (pairs : List (BBox × ℚ)) : ℕ × ℝ :=
  pairs.enum.foldl (bestShotStep frame_width frame_height) (0, 0)

/-- `VehicleTrack.get_best_shot`: `(None, None)` on an empty history,
otherwise the frame/bbox at the selected index (an out-of-range index — a
Python `IndexError`, impossible for tracks whose three histories grew
together — is also modelled as `none`). -/
noncomputable def VehicleTrack.get_best_shot (t : VehicleTrack) :
    Option (Frame × BBox) :=
  if t.bbox_history = [] ∨ t.frame_history = [] then none
  else
    let f0 := t.frame_history.headD ⟨0, 0, 0⟩
    let best_idx := (bestShotFold f0.width f0.height
      (t.bbox_history.zip t.confidence_history)).1
    match t.frame_history.get? best_idx, t.bbox_history.get? best_idx with
    | some f, some b => some (f, b)
    | _, _ => none

/-! ## Camera manager (`camera_manager.py`) -/

/-- The trigger-zone resolution state of a `CameraStreamManager`: the raw
points loaded from the database, the normalized flag, the zone type and the
currently active `TriggerZone` (construction errors modelled as `none`). -/
structure ZoneResolutionState where
  raw_zone_points : List (ℚ × ℚ)
  zone_is_normalized : Bool
  the_zone_type : String
  trigger_zone : Option TriggerZone
  deriving DecidableEq, Repr

/-- `CameraStreamManager._apply_trigger_zone_with_frame_size`: a no-op unless
the zone is still normalized and has points; otherwise scale each normalized
coordinate by the frame width/height, build the `TriggerZone` and clear the
normalized flag. -/
def applyTriggerZoneWithFrameSize (s : ZoneResolutionState)
    (frame_w frame_h : ℚ) : ZoneResolutionState :=
  if s.zone_is_normalized = false then s
  else if s.raw_zone_points = [] then s
  else
    let pixel_points := s.raw_zone_points.map fun p => (p.1 * frame_w, p.2 * frame_h)
    { s with
      trigger_zone := (mkTriggerZone pixel_points s.the_zone_type).toOption
      zone_is_normalized := false }

/-- `max_retries = 5` in `CameraStreamManager._capture_frames`. -/
def maxRetries : ℕ := 5

/-- The reconnect backoff of `_capture_frames`:
`retry_count = min(consecutive_failures, max_retries)`;
`wait_time = retry_delay * 2 ** min(retry_count, 3)`. -/
def backoffWaitTime (retry_delay : ℚ) (consecutive_failures : ℕ) : ℚ :=
  let retry_count := min consecutive_failures maxRetries
  retry_delay * 2 ^ (min retry_count 3)

/-! ## Theorems -/

set_option allowUnsafeReducibility true

section RatReducible

attribute [local semireducible] Rat.mul Rat.add Rat.sub Rat.inv

/-- C9: for consecutive failure counts 0,1,2,3,4 the reconnect backoff is
`base, 2·base, 4·base, 8·base, 8·base`; in general the delay is
`base · 2^min(count, 3)` for every count, and with the default base of 5
seconds it is 40 seconds for every count ≥ 3. -/
theorem reconnect_backoff_values (base : ℚ) :
    (List.range 5).map (backoffWaitTime base) =
      [base, 2 * base, 4 * base, 8 * base, 8 * base]
    ∧ (∀ c : ℕ, backoffWaitTime base c = base * 2 ^ (min c 3))
    ∧ (∀ c : ℕ, backoffWaitTime 5 (c + 3) = 40) := by
  refine ⟨?_, fun c => ?_, fun c => ?_⟩
  · simp only [backoffWaitTime, maxRetries, List.range_succ, List.range_zero,
      List.map_append, List.map_cons, List.map_nil, List.nil_append, List.cons_append]
    norm_num
    exact ⟨by ring, by ring, by ring⟩
  · simp only [backoffWaitTime, maxRetries]
    have h : min (min c 5) 3 = min c 3 := by omega
    rw [h]
  · simp only [backoffWaitTime, maxRetries]
    have h : min (min (c + 3) 5) 3 = 3 := by omega
    rw [h]
    norm_num

/-- C10: the constructor clamps the stored fps to at least 0.1 for every
input (including zero and negatives), so the cleanup timeout
`max_disappeared / fps` is a division by a strictly positive number. -/
theorem fps_clamped_positive (md : ℕ) (mdist : ℚ) (mi mo : ℕ) (fps : ℚ) :
    1 / 10 ≤ (mkTracker md mdist mi mo fps).fps
    ∧ 0 < (mkTracker md mdist mi mo fps).fps
    ∧ (mkTracker md mdist mi mo fps).fps ≠ 0
    ∧ (mkTracker md mdist mi mo fps).max_disappeared_sec =
        (md : ℚ) / (mkTracker md mdist mi mo fps).fps := by
  have hle : 1 / 10 ≤ (mkTracker md mdist mi mo fps).fps := by
    simp only [mkTracker, pymax]
    split
    · assumption
    · exact le_refl _
  have hpos : 0 < (mkTracker md mdist mi mo fps).fps :=
    lt_of_lt_of_le (by norm_num) hle
  exact ⟨hle, hpos, ne_of_gt hpos, rfl⟩

/-- A zone authored as normalized points, as in the spec's end-to-end
scenario C. -/
def normZoneExample : ZoneResolutionState :=
  { raw_zone_points := [(1/10, 1/10), (9/10, 1/10), (9/10, 9/10), (1/10, 9/10)]
    zone_is_normalized := true
    the_zone_type := "polygon"
    trigger_zone := none }

/-- C8: resolving a normalized zone multiplies each coordinate by the frame
width/height (concretely, the spec's `[[0.1,0.1],…]` zone at 640×480 resolves
to `[[64,48],[576,48],[576,432],[64,432]]`), and resolving again on the
already-resolved state is a no-op. -/
theorem trigger_zone_resolution_idempotent :
    (∀ (s : ZoneResolutionState) (w h : ℚ),
      s.zone_is_normalized = true → s.raw_zone_points ≠ [] →
        (applyTriggerZoneWithFrameSize s w h).trigger_zone =
          (mkTriggerZone (s.raw_zone_points.map fun p => (p.1 * w, p.2 * h))
            s.the_zone_type).toOption
        ∧ (applyTriggerZoneWithFrameSize s w h).zone_is_normalized = false)
    ∧ (∀ (s : ZoneResolutionState) (w h : ℚ),
        applyTriggerZoneWithFrameSize (applyTriggerZoneWithFrameSize s w h) w h =
          applyTriggerZoneWithFrameSize s w h)
    ∧ (applyTriggerZoneWithFrameSize normZoneExample 640 480).trigger_zone =
        some ⟨[(64, 48), (576, 48), (576, 432), (64, 432)], "polygon"⟩ := by
  refine ⟨fun s w h hn hr => ?_, fun s w h => ?_, by decide⟩
  · simp [applyTriggerZoneWithFrameSize, hn, hr]
  · by_cases hn : s.zone_is_normalized = false
    · simp [applyTriggerZoneWithFrameSize, hn]
    · by_cases hr : s.raw_zone_points = []
      · simp [applyTriggerZoneWithFrameSize, hn, hr]
      · simp [applyTriggerZoneWithFrameSize, hn, hr]

/-- Witness for C8's hypotheses: the concrete normalized zone at a 640×480
frame satisfies the resolution description. -/
theorem trigger_zone_resolution_idempotent_witness :
    (applyTriggerZoneWithFrameSize normZoneExample 640 480).trigger_zone =
      (mkTriggerZone (normZoneExample.raw_zone_points.map fun p => (p.1 * 640, p.2 * 480))
        normZoneExample.the_zone_type).toOption
    ∧ (applyTriggerZoneWithFrameSize normZoneExample 640 480).zone_is_normalized = false :=
  trigger_zone_resolution_idempotent.1 normZoneExample 640 480 (by decide) (by decide)

/-- C7: `contains_point` is boundary-inclusive — it returns true exactly when
the point is on the polygon's boundary or strictly inside it — and
`contains_bbox` is exactly `contains_point` of the bbox's bottom-center
(for every threshold argument, which the source ignores). -/
theorem contains_point_boundary_inclusive (z : TriggerZone) (p : Point) :
    (z.contains_point p = true ↔
      onPolygonBoundary z.points (p.x, p.y) = true
      ∨ strictlyInside z.points (p.x, p.y) = true)
    ∧ ∀ (b : BBox) (th : ℚ), z.contains_bbox b th = z.contains_point b.bottom_center := by
  constructor
  · unfold TriggerZone.contains_point pointPolygonTest
    split
    · simpa using Or.inl (by assumption)
    · split
      · simpa using Or.inr (by assumption)
      · simp_all
  · intro b th
    rfl

/-- C4: a track registered while a zone is configured starts directly in
`IN_ZONE` with `frames_in_zone = 1`, `born_in_zone = true` and
`zone_entry_time` set when the zone contains the first detection's bbox
(never visiting `ENTERING_ZONE`); otherwise it starts in `IDLE`. -/
theorem born_in_zone_registration (T : Tracker) (bbox : BBox) (frame : Frame)
    (conf now : ℚ) (z : TriggerZone) :
    ∃ tr : VehicleTrack,
      (T.register_new_track bbox frame conf (some z) now).tracks.getLast?
          = some (T.next_track_id, tr)
      ∧ tr.bbox_history = [bbox]
      ∧ (z.contains_bbox bbox = true →
          tr.state = .IN_ZONE ∧ tr.frames_in_zone = 1 ∧ tr.born_in_zone = true
            ∧ tr.zone_entry_time = some now)
      ∧ (z.contains_bbox bbox = false →
          tr.state = .IDLE ∧ tr.born_in_zone = false ∧ tr.frames_in_zone = 0
            ∧ tr.zone_entry_time = none) := by
  refine ⟨newTrackFor T.next_track_id bbox frame conf (some z) now, ?_, ?_, ?_, ?_⟩
  · simp [Tracker.register_new_track]
  · by_cases hz : z.contains_bbox bbox 0 = true <;>
      simp [newTrackFor, hz, VehicleTrack.update, dequeAppend]
  · intro hz
    simp [newTrackFor, hz]
  · intro hz
    simp [newTrackFor, hz, VehicleTrack.update, dequeAppend]

/-- Witness for C4's hypotheses, in both directions: a detection whose
bottom-center lies in the square zone is born `IN_ZONE`, one outside starts
`IDLE`. -/
theorem born_in_zone_registration_witness :
    ∃ tr : VehicleTrack,
      ((mkTracker 30 100 3 5 2).register_new_track ⟨2, 2, 8, 8⟩ ⟨480, 640, 0⟩ 1
          (some ⟨[(0, 0), (10, 0), (10, 10), (0, 10)], "polygon"⟩) 0).tracks.getLast?
        = some (0, tr)
      ∧ tr.state = .IN_ZONE ∧ tr.frames_in_zone = 1 ∧ tr.born_in_zone = true
      ∧ tr.zone_entry_time = some 0 := by
  obtain ⟨tr, h1, _, h3, _⟩ := born_in_zone_registration (mkTracker 30 100 3 5 2)
    ⟨2, 2, 8, 8⟩ ⟨480, 640, 0⟩ 1 0 ⟨[(0, 0), (10, 0), (10, 10), (0, 10)], "polygon"⟩
  obtain ⟨hs, hf, hb, hzt⟩ := h3 (by decide)
  exact ⟨tr, h1, hs, hf, hb, hzt⟩

/-- The index-shift scenario: two live tracks at x≈5 and x≈205, then two
detections at x≈6 and x≈206, each within matching distance of its own track. -/
def indexShiftScenario : Tracker :=
  ((mkTracker 30 100 3 5 2).update
      [(⟨0, 0, 10, 10⟩, 1), (⟨200, 0, 210, 10⟩, 1)] ⟨480, 640, 0⟩ none 0).update
    [(⟨1, 0, 11, 10⟩, 1), (⟨201, 0, 211, 10⟩, 1)] ⟨480, 640, 1⟩ none 1

/-- C2 (code bug): after the first match removes a column, the next matched
detection index refers to the reduced matrix but is used against the original
detection list: here the matcher returns detection indices `[0, 0]` — both
tracks are updated with detection 0 — and detection 1, though matched by
distance, is registered as a third track. -/
theorem match_detections_index_shift :
    matchDetections [[1, 40401], [39601, 1]] [0, 1] 100 = ([0, 1], [0, 0])
    ∧ indexShiftScenario.tracks.length = 3
    ∧ (findTrack 0 indexShiftScenario.tracks).map VehicleTrack.current_bbox
        = some (some ⟨1, 0, 11, 10⟩)
    ∧ (findTrack 1 indexShiftScenario.tracks).map VehicleTrack.current_bbox
        = some (some ⟨1, 0, 11, 10⟩) := by
  refine ⟨by decide, by decide, by decide, by decide⟩

/-- Counterexample for C6: on the square zone, the segment from (5,0) to
(5,-5) touches the bottom edge (0,0)–(10,0) at its endpoint (5,0) — a genuine
intersection, witnessed with parameters t = 0 and u = 1/2 — yet
`line_crosses_zone` returns false, because the strict straddling test rejects
touching contact. -/
theorem line_crosses_zone_misses_touching :
    TriggerZone.line_crosses_zone ⟨[(0, 0), (10, 0), (10, 10), (0, 10)], "polygon"⟩
        (5, 0) (5, -5) = false
    ∧ ((0, 0), (10, 0)) ∈ polygonEdges [(0, 0), (10, 0), (10, 10), (0, 10)]
    ∧ SegIntersects (5, 0) (5, -5) (0, 0) (10, 0) := by
  refine ⟨by decide, by decide, 0, 1/2, ?_⟩
  norm_num

/-- C6 (amended): `line_crosses_zone(p1, p2)` returns true iff the segment
`p1 → p2` *properly crosses* some edge of the zone polygon (endpoints
strictly on opposite sides of each other's supporting line; touching or
collinear contact is not detected); and a track in IDLE whose current
bottom-center is outside the zone but whose segment from the previous
bottom-center properly crosses a zone edge is treated as in-zone by the
state machine (it transitions to ENTERING_ZONE). -/
theorem line_crosses_zone_proper_crossing (z : TriggerZone) (p1 p2 : ℚ × ℚ) :
    (z.line_crosses_zone p1 p2 = true ↔
      ∃ e ∈ polygonEdges z.points, segments_intersect p1 p2 e.1 e.2 = true)
    ∧ (∀ (t : VehicleTrack) (bb : BBox) (mi mo : ℕ) (now : ℚ),
        t.state = .IDLE →
        t.current_bbox = some bb →
        z.contains_bbox bb = false →
        t.prev_bottom_center = some p1 →
        z.line_crosses_zone p1 ((bb.x1 + bb.x2) / 2, bb.y2) = true →
          effectiveInZone z t bb = true
          ∧ ((stateMachineStep mi mo z now t).1).state = .ENTERING_ZONE
          ∧ ((stateMachineStep mi mo z now t).1).frames_in_zone = 1) := by
  constructor
  · simp [TriggerZone.line_crosses_zone, List.any_eq_true]
  · intro t bb mi mo now hst hcb hout hprev hcross
    have heff : effectiveInZone z t bb = true := by
      simp [effectiveInZone, hout, hprev, hcross]
    refine ⟨heff, ?_, ?_⟩ <;>
      simp [stateMachineStep, hcb, hst, heff]

/-- Witness for C6's amended hypotheses: a track whose bottom-center jumped
from (5,-5) to (5,15), both outside the square zone, crosses the zone's
bottom and top edges and is treated as entering. -/
theorem line_crosses_zone_proper_crossing_witness :
    effectiveInZone ⟨[(0, 0), (10, 0), (10, 10), (0, 10)], "polygon"⟩
        { track_id := 0, state := .IDLE, bbox_history := [⟨0, 10, 10, 15⟩],
          prev_bottom_center := some (5, -5), first_seen := 0, last_seen := 0 }
        ⟨0, 10, 10, 15⟩ = true
    ∧ ((stateMachineStep 3 5 ⟨[(0, 0), (10, 0), (10, 10), (0, 10)], "polygon"⟩ 7
          { track_id := 0, state := .IDLE, bbox_history := [⟨0, 10, 10, 15⟩],
            prev_bottom_center := some (5, -5), first_seen := 0, last_seen := 0 }).1).state
        = .ENTERING_ZONE := by
  have h := (line_crosses_zone_proper_crossing
      ⟨[(0, 0), (10, 0), (10, 10), (0, 10)], "polygon"⟩ (5, -5) (5, 15)).2
    { track_id := 0, state := .IDLE, bbox_history := [⟨0, 10, 10, 15⟩],
      prev_bottom_center := some (5, -5), first_seen := 0, last_seen := 0 }
    ⟨0, 10, 10, 15⟩ 3 5 7 rfl (by decide) (by decide) rfl (by decide)
  exact ⟨h.1, h.2.1⟩

/-! ### Structure of the per-track phases -/

theorem runPendPhase_fst (f : VehicleTrack → VehicleTrack × Bool)
    (ts : List (ℕ × VehicleTrack)) :
    (runPendPhase f ts).1 = ts.map fun kt => (kt.1, (f kt.2).1) := by
  induction ts with
  | nil => rfl
  | cons kt rest ih => simp [runPendPhase, ih]

theorem runPendPhase_snd (f : VehicleTrack → VehicleTrack × Bool)
    (ts : List (ℕ × VehicleTrack)) :
    (runPendPhase f ts).2 = (ts.filter fun kt => (f kt.2).2).map Prod.fst := by
  induction ts with
  | nil => rfl
  | cons kt rest ih =>
      by_cases hb : (f kt.2).2 = true <;> simp [runPendPhase, ih, hb]

theorem runCleanupPhase_fst (f : VehicleTrack → VehicleTrack × Bool × Bool)
    (ts : List (ℕ × VehicleTrack)) :
    (runCleanupPhase f ts).1 =
      (ts.filter fun kt => ¬ (f kt.2).2.2).map fun kt => (kt.1, (f kt.2).1) := by
  induction ts with
  | nil => rfl
  | cons kt rest ih =>
      by_cases hr : (f kt.2).2.2 = true <;> simp [runCleanupPhase, ih, hr]

theorem runCleanupPhase_snd (f : VehicleTrack → VehicleTrack × Bool × Bool)
    (ts : List (ℕ × VehicleTrack)) :
    (runCleanupPhase f ts).2 = (ts.filter fun kt => (f kt.2).2.1).map Prod.fst := by
  induction ts with
  | nil => rfl
  | cons kt rest ih =>
      by_cases hb : (f kt.2).2.1 = true <;> simp [runCleanupPhase, ih, hb]

theorem findTrack_map_val (i : ℕ) (g : VehicleTrack → VehicleTrack)
    (ts : List (ℕ × VehicleTrack)) :
    findTrack i (ts.map fun kt => (kt.1, g kt.2)) = (findTrack i ts).map g := by
  induction ts with
  | nil => rfl
  | cons kt rest ih =>
      by_cases hk : kt.1 = i
      · simp [findTrack, List.find?_cons, hk]
      · simp [findTrack, List.find?_cons, hk]
        simpa [findTrack] using ih

theorem findTrack_runPendPhase (f : VehicleTrack → VehicleTrack × Bool)
    (i : ℕ) (ts : List (ℕ × VehicleTrack)) :
    findTrack i (runPendPhase f ts).1 = (findTrack i ts).map fun t => (f t).1 := by
  induction ts with
  | nil => rfl
  | cons kt rest ih =>
      by_cases hk : kt.1 = i
      · simp [runPendPhase, findTrack, List.find?_cons, hk]
      · simp only [runPendPhase, findTrack, List.find?_cons] at ih ⊢
        simpa [hk] using ih

/-- The branch form of one disappearance-path step. -/
theorem disappearedStep_eq (mo : ℕ) (now : ℚ) (t : VehicleTrack) :
    disappearedStep mo now t =
      if t.state = .IN_ZONE ∧ mo ≤ t.frames_out_of_zone + 1 ∧
          t.processing_started = false then
        ({ t with
            frames_out_of_zone := t.frames_out_of_zone + 1
            state := .PROCESSING
            zone_exit_time := some now
            processing_started := true }, true)
      else ({ t with frames_out_of_zone := t.frames_out_of_zone + 1 }, false) := by
  unfold disappearedStep
  by_cases h : t.state = VehicleState.IN_ZONE ∧ mo ≤ t.frames_out_of_zone + 1 ∧
      t.processing_started = false
  · simp [h]
  · simp [h]

theorem mem_runPendPhase_snd {f : VehicleTrack → VehicleTrack × Bool}
    {ts : List (ℕ × VehicleTrack)} {i : ℕ} {t : VehicleTrack}
    (hf : findTrack i ts = some t) (hp : (f t).2 = true) :
    i ∈ (runPendPhase f ts).2 := by
  induction ts with
  | nil => simp [findTrack] at hf
  | cons kt rest ih =>
      by_cases hk : kt.1 = i
      · have ht : kt.2 = t := by
          simpa [findTrack, List.find?_cons, hk] using hf
        subst ht
        simp [runPendPhase_snd, List.filter_cons, hp, hk]
      · have hf' : findTrack i rest = some t := by
          simpa [findTrack, List.find?_cons, hk] using hf
        have := ih hf'
        simp only [runPendPhase_snd] at this ⊢
        by_cases hb : (f kt.2).2 = true <;>
          simp [List.filter_cons, hb, this]

/-- The empty-detection branch of `update` is exactly the disappearance path
on the pending-reset tracker. -/
theorem update_empty_eq (T : Tracker) (frame : Frame) (zone : Option TriggerZone)
    (now : ℚ) :
    T.update [] frame zone now =
      Tracker.handle_disappeared_tracks { T with pending := [] } now := rfl

theorem handle_disappeared_tracks_eq (T : Tracker) (now : ℚ) :
    T.handle_disappeared_tracks now =
      { T with
        tracks := (runPendPhase (disappearedStep T.min_frames_out_of_zone now) T.tracks).1
        pending := T.pending ++
          (runPendPhase (disappearedStep T.min_frames_out_of_zone now) T.tracks).2 } := rfl

/-- C3 (amended): on an `update()` call whose detection list is entirely
empty, every live track's `frames_out_of_zone` is incremented by one, and an
`IN_ZONE` track whose counter reaches the threshold with `processing_started`
still false is force-transitioned to `PROCESSING` (exit time set, gate
flipped, id appended to the ready list).  When other detections exist but the
track is left unmatched, the source instead routes the track through the
state machine on its stale bbox, so this claim is restricted to the
empty-detection path (see the counterexample). -/
theorem disappeared_path_empty_frame (T : Tracker) (frame : Frame)
    (zone : Option TriggerZone) (now : ℚ) (i : ℕ) (t : VehicleTrack)
    (hf : findTrack i T.tracks = some t) :
    ∃ t', findTrack i (T.update [] frame zone now).tracks = some t'
      ∧ t'.frames_out_of_zone = t.frames_out_of_zone + 1
      ∧ (t.state = .IN_ZONE →
          T.min_frames_out_of_zone ≤ t.frames_out_of_zone + 1 →
          t.processing_started = false →
            t'.state = .PROCESSING ∧ t'.zone_exit_time = some now
              ∧ t'.processing_started = true
              ∧ i ∈ (T.update [] frame zone now).pending) := by
  rw [update_empty_eq, handle_disappeared_tracks_eq]
  refine ⟨(disappearedStep T.min_frames_out_of_zone now t).1, ?_, ?_, ?_⟩
  · rw [findTrack_runPendPhase, hf]
    rfl
  · rw [disappearedStep_eq]
    split <;> rfl
  · intro hs hmin hps
    have hcond : (t.state = VehicleState.IN_ZONE
        ∧ T.min_frames_out_of_zone ≤ t.frames_out_of_zone + 1
        ∧ t.processing_started = false) := ⟨hs, hmin, hps⟩
    have hstep : disappearedStep T.min_frames_out_of_zone now t =
        ({ t with
            frames_out_of_zone := t.frames_out_of_zone + 1
            state := .PROCESSING
            zone_exit_time := some now
            processing_started := true }, true) := by
      rw [disappearedStep_eq, if_pos hcond]
    refine ⟨?_, ?_, ?_, ?_⟩
    · rw [hstep]
    · rw [hstep]
    · rw [hstep]
    · simp only [List.nil_append]
      exact mem_runPendPhase_snd hf (by rw [hstep])

/-- The tracker of the C3 witness: one `IN_ZONE` track one frame short of the
out-of-zone threshold, gate still open. -/
def c3Tracker : Tracker :=
  { next_track_id := 1
    tracks := [(0, { track_id := 0, state := .IN_ZONE, bbox_history := [⟨2, 2, 8, 8⟩],
                     frames_out_of_zone := 4, first_seen := 0, last_seen := 0 })]
    max_disappeared := 30
    max_distance := 100
    min_frames_in_zone := 3
    min_frames_out_of_zone := 5
    fps := 2
    pending := [] }

/-- Witness for C3's amended hypotheses: the threshold-reaching empty-frame
update transitions the witness track and publishes it. -/
theorem disappeared_path_empty_frame_witness :
    ∃ t', findTrack 0 (c3Tracker.update [] ⟨480, 640, 1⟩ none 1).tracks = some t'
      ∧ t'.frames_out_of_zone = 5
      ∧ t'.state = .PROCESSING ∧ t'.zone_exit_time = some 1
      ∧ t'.processing_started = true
      ∧ 0 ∈ (c3Tracker.update [] ⟨480, 640, 1⟩ none 1).pending := by
  obtain ⟨t', h1, h2, h3⟩ := disappeared_path_empty_frame c3Tracker ⟨480, 640, 1⟩ none 1 0
    { track_id := 0, state := .IN_ZONE, bbox_history := [⟨2, 2, 8, 8⟩],
      frames_out_of_zone := 4, first_seen := 0, last_seen := 0 } rfl
  obtain ⟨hs, hz, hp, hm⟩ := h3 rfl (by decide) rfl
  exact ⟨t', h1, by simpa using h2, hs, hz, hp, hm⟩

/-- Counterexample for C3: with one live `IDLE` track (centroid (5,5)) and a
single far-away detection (centroid (1005,1005), unmatched — the matcher
returns no pairs), the update leaves the track's `frames_out_of_zone` at 0:
the disappearance increment runs only when the detection list is entirely
empty, not for an unmatched track on a non-empty frame. -/
theorem frames_out_not_incremented_when_unmatched :
    matchDetections (computeDistances [(5, 5)] [(1005, 1005)]) [0] 100 = ([], [])
    ∧ (findTrack 0 (((mkTracker 30 100 3 5 2).update
          [(⟨0, 0, 10, 10⟩, 1)] ⟨480, 640, 0⟩ none 0).update
          [(⟨1000, 1000, 1010, 1010⟩, 1)] ⟨480, 640, 1⟩ none 1).tracks).map
        VehicleTrack.frames_out_of_zone = some 0
    ∧ (findTrack 0 (((mkTracker 30 100 3 5 2).update
          [(⟨0, 0, 10, 10⟩, 1)] ⟨480, 640, 0⟩ none 0).update
          [(⟨1000, 1000, 1010, 1010⟩, 1)] ⟨480, 640, 1⟩ none 1).tracks).map
        VehicleTrack.frames_out_of_zone ≠ some 1 := by
  refine ⟨by decide, by decide, by decide⟩

/-! ### The one-way `processing_started` gate (C1) -/

/-- Well-formedness of the tracker's dict: ids are unique and below the id
counter (true of a fresh tracker and preserved by `update`). -/
def Tracker.WF (T : Tracker) : Prop :=
  (T.tracks.map Prod.fst).Nodup ∧ ∀ k ∈ T.tracks.map Prod.fst, k < T.next_track_id

theorem mkTracker_WF (md : ℕ) (mdist : ℚ) (mi mo : ℕ) (fps : ℚ) :
    (mkTracker md mdist mi mo fps).WF := by
  exact ⟨List.nodup_nil, by simp [mkTracker]⟩

/-- The disappearance-path step respects the gate: it appends only with the
gate previously open, closes it on append, and never reopens it. -/
theorem disappearedStep_gate (mo : ℕ) (now : ℚ) (t : VehicleTrack) :
    ((disappearedStep mo now t).2 = true →
        t.processing_started = false
        ∧ (disappearedStep mo now t).1.processing_started = true)
    ∧ (t.processing_started = true →
        (disappearedStep mo now t).1.processing_started = true) := by
  rw [disappearedStep_eq]
  split
  · rename_i h
    exact ⟨fun _ => ⟨h.2.2, rfl⟩, fun hs => rfl⟩
  · exact ⟨fun h => by simp at h, fun hs => hs⟩

/-- The state-machine step respects the gate. -/
theorem stateMachineStep_gate (mi mo : ℕ) (z : TriggerZone) (now : ℚ)
    (t : VehicleTrack) :
    ((stateMachineStep mi mo z now t).2 = true →
        t.processing_started = false
        ∧ (stateMachineStep mi mo z now t).1.processing_started = true)
    ∧ (t.processing_started = true →
        (stateMachineStep mi mo z now t).1.processing_started = true) := by
  unfold stateMachineStep
  cases hbb : t.current_bbox with
  | none => simp
  | some bb =>
      cases hst : t.state <;> simp only <;>
        first
          | (split_ifs <;> simp_all)
          | simp_all

/-- The cleanup force-flush step respects the gate. -/
theorem cleanupStep_gate (s now : ℚ) (t : VehicleTrack) :
    ((cleanupStep s now t).2.1 = true →
        t.processing_started = false
        ∧ (cleanupStep s now t).1.processing_started = true)
    ∧ (t.processing_started = true →
        (cleanupStep s now t).1.processing_started = true) := by
  unfold cleanupStep
  split_ifs <;> simp_all

theorem findTrack_some_mem_keys {i : ℕ} {ts : List (ℕ × VehicleTrack)}
    {t : VehicleTrack} (hf : findTrack i ts = some t) : i ∈ ts.map Prod.fst := by
  unfold findTrack at hf
  cases hfind : ts.find? fun kt => kt.1 = i with
  | none => rw [hfind] at hf; cases hf
  | some kt =>
      have hP := List.find?_some hfind
      have hm := List.mem_of_find?_eq_some hfind
      simp only [decide_eq_true_eq] at hP
      exact hP ▸ List.mem_map_of_mem Prod.fst hm

theorem findTrack_eq_of_mem {ts : List (ℕ × VehicleTrack)}
    (hN : (ts.map Prod.fst).Nodup) {kt : ℕ × VehicleTrack} (hm : kt ∈ ts) :
    findTrack kt.1 ts = some kt.2 := by
  induction ts with
  | nil => cases hm
  | cons a rest ih =>
      rcases List.mem_cons.mp hm with heq | hmem
      · subst heq
        simp [findTrack, List.find?_cons]
      · have hne : a.1 ≠ kt.1 := by
          intro hcontra
          have : kt.1 ∈ rest.map Prod.fst := List.mem_map_of_mem Prod.fst hmem
          rw [List.map_cons, List.nodup_cons] at hN
          exact hN.1 (hcontra ▸ this)
        have := ih (by rw [List.map_cons, List.nodup_cons] at hN; exact hN.2) hmem
        simpa [findTrack, List.find?_cons, hne] using this

theorem count_runPendPhase_snd_le_one {f : VehicleTrack → VehicleTrack × Bool}
    {ts : List (ℕ × VehicleTrack)} (hN : (ts.map Prod.fst).Nodup) (i : ℕ) :
    ((runPendPhase f ts).2).count i ≤ 1 := by
  rw [runPendPhase_snd]
  have hsub : ((ts.filter fun kt => (f kt.2).2).map Prod.fst).Sublist (ts.map Prod.fst) :=
    (List.filter_sublist ts).map Prod.fst
  exact le_trans (hsub.count_le i) (List.nodup_iff_count_le_one.mp hN i)

theorem count_runCleanupPhase_snd_le_one
    {f : VehicleTrack → VehicleTrack × Bool × Bool}
    {ts : List (ℕ × VehicleTrack)} (hN : (ts.map Prod.fst).Nodup) (i : ℕ) :
    ((runCleanupPhase f ts).2).count i ≤ 1 := by
  rw [runCleanupPhase_snd]
  have hsub : ((ts.filter fun kt => (f kt.2).2.1).map Prod.fst).Sublist (ts.map Prod.fst) :=
    (List.filter_sublist ts).map Prod.fst
  exact le_trans (hsub.count_le i) (List.nodup_iff_count_le_one.mp hN i)

theorem mem_runPendPhase_snd_elim {f : VehicleTrack → VehicleTrack × Bool}
    {ts : List (ℕ × VehicleTrack)} {i : ℕ} (hN : (ts.map Prod.fst).Nodup)
    (h : i ∈ (runPendPhase f ts).2) :
    ∃ t, findTrack i ts = some t ∧ (f t).2 = true := by
  rw [runPendPhase_snd] at h
  obtain ⟨kt, hkt, hfst⟩ := List.mem_map.mp h
  obtain ⟨hmem, hpend⟩ := List.mem_filter.mp hkt
  refine ⟨kt.2, ?_, by simpa using hpend⟩
  rw [← hfst]
  exact findTrack_eq_of_mem hN hmem

theorem mem_runCleanupPhase_snd_elim {f : VehicleTrack → VehicleTrack × Bool × Bool}
    {ts : List (ℕ × VehicleTrack)} {i : ℕ} (hN : (ts.map Prod.fst).Nodup)
    (h : i ∈ (runCleanupPhase f ts).2) :
    ∃ t, findTrack i ts = some t ∧ (f t).2.1 = true := by
  rw [runCleanupPhase_snd] at h
  obtain ⟨kt, hkt, hfst⟩ := List.mem_map.mp h
  obtain ⟨hmem, hpend⟩ := List.mem_filter.mp hkt
  refine ⟨kt.2, ?_, by simpa using hpend⟩
  rw [← hfst]
  exact findTrack_eq_of_mem hN hmem

theorem runPendPhase_keys (f : VehicleTrack → VehicleTrack × Bool)
    (ts : List (ℕ × VehicleTrack)) :
    (runPendPhase f ts).1.map Prod.fst = ts.map Prod.fst := by
  rw [runPendPhase_fst, List.map_map]
  rfl

theorem runCleanupPhase_keys_sublist (f : VehicleTrack → VehicleTrack × Bool × Bool)
    (ts : List (ℕ × VehicleTrack)) :
    ((runCleanupPhase f ts).1.map Prod.fst).Sublist (ts.map Prod.fst) := by
  rw [runCleanupPhase_fst, List.map_map]
  have : (Prod.fst ∘ fun kt : ℕ × VehicleTrack => (kt.1, (f kt.2).1)) = Prod.fst := rfl
  rw [this]
  exact (List.filter_sublist ts).map Prod.fst

theorem findTrack_none_of_not_mem {i : ℕ} {ts : List (ℕ × VehicleTrack)}
    (h : i ∉ ts.map Prod.fst) : findTrack i ts = none := by
  unfold findTrack
  rw [List.find?_eq_none.mpr]
  · rfl
  · intro kt hkt
    simp only [decide_eq_true_eq]
    intro hcontra
    exact h (hcontra ▸ List.mem_map_of_mem Prod.fst hkt)

theorem runCleanupPhase_cons (f : VehicleTrack → VehicleTrack × Bool × Bool)
    (kt : ℕ × VehicleTrack) (rest : List (ℕ × VehicleTrack)) :
    runCleanupPhase f (kt :: rest) =
      (if (f kt.2).2.2 = true then (runCleanupPhase f rest).1
        else (kt.1, (f kt.2).1) :: (runCleanupPhase f rest).1,
       if (f kt.2).2.1 = true then kt.1 :: (runCleanupPhase f rest).2
        else (runCleanupPhase f rest).2) := rfl

theorem findTrack_runCleanupPhase {f : VehicleTrack → VehicleTrack × Bool × Bool} :
    ∀ {ts : List (ℕ × VehicleTrack)}, (ts.map Prod.fst).Nodup → ∀ i : ℕ,
      findTrack i (runCleanupPhase f ts).1 =
        match findTrack i ts with
        | none => none
        | some t => if (f t).2.2 = true then none else some (f t).1 := by
  intro ts
  induction ts with
  | nil => intro _ i; rfl
  | cons kt rest ih =>
      intro hN i
      rw [List.map_cons, List.nodup_cons] at hN
      rw [runCleanupPhase_cons]
      by_cases hk : kt.1 = i
      · have hnotin : findTrack i (runCleanupPhase f rest).1 = none := by
          apply findTrack_none_of_not_mem
          intro hcontra
          exact hN.1 (hk ▸ (runCleanupPhase_keys_sublist f rest).subset hcontra)
        by_cases hr : (f kt.2).2.2 = true
        · simp only [hr, if_pos]
          rw [hnotin]
          simp [findTrack, List.find?_cons, hk, hr]
        · simp only [hr, if_neg, Bool.not_eq_true]
          simp [findTrack, List.find?_cons, hk, hr]
      · have hrec := ih hN.2 i
        by_cases hr : (f kt.2).2.2 = true
        · simp only [hr, if_pos]
          rw [hrec]
          simp [findTrack, List.find?_cons, hk]
        · simp only [hr, if_neg, Bool.not_eq_true]
          have hfind : findTrack i ((kt.1, (f kt.2).1) :: (runCleanupPhase f rest).1)
              = findTrack i (runCleanupPhase f rest).1 := by
            simp [findTrack, List.find?_cons, hk]
          rw [hfind, hrec]
          simp [findTrack, List.find?_cons, hk]

/-! ### The matching/registration phase leaves the gate untouched -/

theorem VehicleTrack.update_started (t : VehicleTrack) (b : BBox) (f : Frame)
    (c now : ℚ) :
    (t.update b f c now).processing_started = t.processing_started := by
  unfold VehicleTrack.update
  cases h : t.bbox_history.getLast? <;> simp [h]

theorem newTrackFor_started (id : ℕ) (b : BBox) (f : Frame) (c : ℚ)
    (zone : Option TriggerZone) (now : ℚ) :
    (newTrackFor id b f c zone now).processing_started = false := by
  unfold newTrackFor
  cases zone with
  | none => simp [VehicleTrack.update_started]
  | some z =>
      by_cases hz : z.contains_bbox b 0 = true <;> simp [hz, VehicleTrack.update_started]

theorem register_pending (T : Tracker) (b : BBox) (f : Frame) (c : ℚ)
    (zone : Option TriggerZone) (now : ℚ) :
    (T.register_new_track b f c zone now).pending = T.pending := rfl

theorem register_next (T : Tracker) (b : BBox) (f : Frame) (c : ℚ)
    (zone : Option TriggerZone) (now : ℚ) :
    (T.register_new_track b f c zone now).next_track_id = T.next_track_id + 1 := rfl

theorem register_params (T : Tracker) (b : BBox) (f : Frame) (c : ℚ)
    (zone : Option TriggerZone) (now : ℚ) :
    (T.register_new_track b f c zone now).max_disappeared = T.max_disappeared
    ∧ (T.register_new_track b f c zone now).max_distance = T.max_distance
    ∧ (T.register_new_track b f c zone now).min_frames_in_zone = T.min_frames_in_zone
    ∧ (T.register_new_track b f c zone now).min_frames_out_of_zone = T.min_frames_out_of_zone
    ∧ (T.register_new_track b f c zone now).fps = T.fps :=
  ⟨rfl, rfl, rfl, rfl, rfl⟩

theorem register_keys (T : Tracker) (b : BBox) (f : Frame) (c : ℚ)
    (zone : Option TriggerZone) (now : ℚ) :
    (T.register_new_track b f c zone now).tracks.map Prod.fst =
      T.tracks.map Prod.fst ++ [T.next_track_id] := by
  simp [Tracker.register_new_track]

theorem findTrack_register (T : Tracker) (b : BBox) (f : Frame) (c : ℚ)
    (zone : Option TriggerZone) (now : ℚ) (i : ℕ) :
    findTrack i (T.register_new_track b f c zone now).tracks =
      match findTrack i T.tracks with
      | some t => some t
      | none =>
          if T.next_track_id = i then some (newTrackFor T.next_track_id b f c zone now)
          else none := by
  unfold Tracker.register_new_track findTrack
  rw [List.find?_append]
  cases hfind : T.tracks.find? fun kt => kt.1 = i with
  | some kt => simp
  | none =>
      by_cases hi : T.next_track_id = i <;> simp [List.find?_cons, hi]

theorem register_WF {T : Tracker} (hWF : T.WF) (b : BBox) (f : Frame) (c : ℚ)
    (zone : Option TriggerZone) (now : ℚ) :
    (T.register_new_track b f c zone now).WF := by
  obtain ⟨hN, hB⟩ := hWF
  constructor
  · rw [register_keys, List.nodup_append]
    refine ⟨hN, List.nodup_singleton _, ?_⟩
    intro k hk
    simp only [List.mem_singleton]
    intro hcontra
    exact absurd (hB k hk) (by rw [hcontra]; exact lt_irrefl _)
  · rw [register_keys]
    intro k hk
    rw [register_next]
    rcases List.mem_append.mp hk with h | h
    · exact lt_trans (hB k h) (Nat.lt_succ_self _)
    · simp only [List.mem_singleton] at h
      rw [h]
      exact Nat.lt_succ_self _

theorem modifyTrack_keys (j : ℕ) (f : VehicleTrack → VehicleTrack)
    (ts : List (ℕ × VehicleTrack)) :
    (modifyTrack j f ts).map Prod.fst = ts.map Prod.fst := by
  unfold modifyTrack
  rw [List.map_map]
  congr 1
  funext kt
  by_cases hk : kt.1 = j <;> simp [hk]

theorem findTrack_modifyTrack (i j : ℕ) (f : VehicleTrack → VehicleTrack)
    (ts : List (ℕ × VehicleTrack)) :
    findTrack i (modifyTrack j f ts) =
      (findTrack i ts).map fun t => if j = i then f t else t := by
  induction ts with
  | nil => rfl
  | cons kt rest ih =>
      have hcons : modifyTrack j f (kt :: rest)
          = (if kt.1 = j then (kt.1, f kt.2) else kt) :: modifyTrack j f rest := rfl
      rw [hcons]
      by_cases hj : kt.1 = j
      · rw [if_pos hj]
        by_cases hk : kt.1 = i
        · have hji : j = i := hj ▸ hk
          have h1 : findTrack i ((kt.1, f kt.2) :: modifyTrack j f rest)
              = some (f kt.2) := by simp [findTrack, List.find?_cons, hk]
          have h2 : findTrack i (kt :: rest) = some kt.2 := by
            simp [findTrack, List.find?_cons, hk]
          rw [h1, h2]
          simp [hji]
        · have h1 : findTrack i ((kt.1, f kt.2) :: modifyTrack j f rest)
              = findTrack i (modifyTrack j f rest) := by
            simp [findTrack, List.find?_cons, hk]
          have h2 : findTrack i (kt :: rest) = findTrack i rest := by
            simp [findTrack, List.find?_cons, hk]
          rw [h1, h2, ih]
      · rw [if_neg hj]
        by_cases hk : kt.1 = i
        · have hji : ¬ j = i := fun hcontra => hj (hcontra ▸ hk)
          have h1 : findTrack i (kt :: modifyTrack j f rest) = some kt.2 := by
            simp [findTrack, List.find?_cons, hk]
          have h2 : findTrack i (kt :: rest) = some kt.2 := by
            simp [findTrack, List.find?_cons, hk]
          rw [h1, h2]
          simp [hji]
        · have h1 : findTrack i (kt :: modifyTrack j f rest)
              = findTrack i (modifyTrack j f rest) := by
            simp [findTrack, List.find?_cons, hk]
          have h2 : findTrack i (kt :: rest) = findTrack i rest := by
            simp [findTrack, List.find?_cons, hk]
          rw [h1, h2, ih]

theorem applyMatchStep_facts (detections : List (BBox × ℚ)) (frame : Frame)
    (now : ℚ) (acc : Tracker) (td : ℕ × ℕ) :
    (applyMatchStep detections frame now acc td).tracks.map Prod.fst
        = acc.tracks.map Prod.fst
    ∧ (applyMatchStep detections frame now acc td).pending = acc.pending
    ∧ (applyMatchStep detections frame now acc td).next_track_id = acc.next_track_id
    ∧ (∀ i, trackStarted (applyMatchStep detections frame now acc td) i
        = trackStarted acc i)
    ∧ (applyMatchStep detections frame now acc td).min_frames_in_zone
        = acc.min_frames_in_zone
    ∧ (applyMatchStep detections frame now acc td).min_frames_out_of_zone
        = acc.min_frames_out_of_zone
    ∧ (applyMatchStep detections frame now acc td).max_disappeared
        = acc.max_disappeared
    ∧ (applyMatchStep detections frame now acc td).fps = acc.fps := by
  cases hd : detections.get? td.2 with
  | none =>
      rw [List.get?_eq_getElem?] at hd
      simp [applyMatchStep, hd]
  | some d =>
      rw [List.get?_eq_getElem?] at hd
      refine ⟨?_, ?_, ?_, fun i => ?_, ?_, ?_, ?_, ?_⟩ <;>
        simp only [applyMatchStep, List.get?_eq_getElem?, hd] <;>
        try rfl
      · exact modifyTrack_keys _ _ _
      · unfold trackStarted
        have key : ∀ ts : List (ℕ × VehicleTrack),
            (findTrack i (modifyTrack td.1 (fun t => t.update d.1 frame d.2 now) ts)).map
                VehicleTrack.processing_started
              = (findTrack i ts).map VehicleTrack.processing_started := by
          intro ts
          rw [findTrack_modifyTrack]
          cases hf : findTrack i ts with
          | none => rfl
          | some t =>
              by_cases hji : td.1 = i <;> simp [hji, VehicleTrack.update_started]
        exact key acc.tracks

theorem applyMatches_facts (T : Tracker) (mt md : List ℕ)
    (detections : List (BBox × ℚ)) (frame : Frame) (now : ℚ) :
    (applyMatches T mt md detections frame now).tracks.map Prod.fst
        = T.tracks.map Prod.fst
    ∧ (applyMatches T mt md detections frame now).pending = T.pending
    ∧ (applyMatches T mt md detections frame now).next_track_id = T.next_track_id
    ∧ (∀ i, trackStarted (applyMatches T mt md detections frame now) i
        = trackStarted T i)
    ∧ (applyMatches T mt md detections frame now).min_frames_in_zone
        = T.min_frames_in_zone
    ∧ (applyMatches T mt md detections frame now).min_frames_out_of_zone
        = T.min_frames_out_of_zone
    ∧ (applyMatches T mt md detections frame now).max_disappeared
        = T.max_disappeared
    ∧ (applyMatches T mt md detections frame now).fps = T.fps := by
  unfold applyMatches
  generalize mt.zip md = pairs
  induction pairs generalizing T with
  | nil => exact ⟨rfl, rfl, rfl, fun i => rfl, rfl, rfl, rfl, rfl⟩
  | cons td rest ih =>
      rw [List.foldl_cons]
      obtain ⟨k1, k2, k3, k4, k5, k6, k7, k8⟩ :=
        ih (applyMatchStep detections frame now T td)
      obtain ⟨s1, s2, s3, s4, s5, s6, s7, s8⟩ :=
        applyMatchStep_facts detections frame now T td
      exact ⟨k1.trans s1, k2.trans s2, k3.trans s3,
        fun i => (k4 i).trans (s4 i), k5.trans s5, k6.trans s6,
        k7.trans s7, k8.trans s8⟩

/-- Register-like fold steps: each element either leaves the tracker alone or
registers a new track (with arbitrary arguments). -/
def RegisterLike {α : Type} (step : Tracker → α → Tracker) : Prop :=
  ∀ acc a, step acc a = acc ∨
    ∃ b fr c zo nw, step acc a = acc.register_new_track b fr c zo nw

theorem foldl_register_facts {α : Type} {step : Tracker → α → Tracker}
    (hstep : RegisterLike step) (L : List α) (T : Tracker) :
    (∀ i t, findTrack i T.tracks = some t →
        findTrack i (L.foldl step T).tracks = some t)
    ∧ (L.foldl step T).pending = T.pending
    ∧ T.next_track_id ≤ (L.foldl step T).next_track_id
    ∧ (∀ i, i ∈ (L.foldl step T).tracks.map Prod.fst →
        i ∈ T.tracks.map Prod.fst ∨ T.next_track_id ≤ i)
    ∧ (T.WF → (L.foldl step T).WF)
    ∧ (∀ i, trackStarted T i = none → trackStarted (L.foldl step T) i = none
        ∨ trackStarted (L.foldl step T) i = some false)
    ∧ (L.foldl step T).min_frames_in_zone = T.min_frames_in_zone
    ∧ (L.foldl step T).min_frames_out_of_zone = T.min_frames_out_of_zone
    ∧ (L.foldl step T).max_disappeared = T.max_disappeared
    ∧ (L.foldl step T).fps = T.fps := by
  induction L generalizing T with
  | nil =>
      exact ⟨fun i t h => h, rfl, le_refl _, fun i h => Or.inl h, fun h => h,
        fun i h => Or.inl h, rfl, rfl, rfl, rfl⟩
  | cons a rest ih =>
      rw [List.foldl_cons]
      rcases hstep T a with heq | ⟨b, fr, c, zo, nw, heq⟩
      · rw [heq]
        exact ih T
      · rw [heq]
        set T1 := T.register_new_track b fr c zo nw with hT1
        obtain ⟨k1, k2, k3, k4, k5, k6, k7, k8, k9, k10⟩ := ih T1
        refine ⟨?_, ?_, ?_, ?_, ?_, ?_, ?_, ?_, ?_, ?_⟩
        · intro i t hf
          apply k1
          rw [hT1, findTrack_register, hf]
        · rw [k2, hT1, register_pending]
        · calc T.next_track_id ≤ T1.next_track_id := by
                rw [hT1, register_next]; exact Nat.le_succ _
            _ ≤ _ := k3
        · intro i hi
          rcases k4 i hi with h | h
          · rw [hT1, register_keys] at h
            rcases List.mem_append.mp h with h' | h'
            · exact Or.inl h'
            · simp only [List.mem_singleton] at h'
              exact Or.inr (le_of_eq h'.symm)
          · rw [hT1, register_next] at h
            exact Or.inr (le_trans (Nat.le_succ _) h)
        · intro hWF
          exact k5 (register_WF hWF b fr c zo nw)
        · intro i hnone
          have hfind : findTrack i T.tracks = none := by
            unfold trackStarted at hnone
            cases hft : findTrack i T.tracks with
            | none => rfl
            | some t => rw [hft] at hnone; cases hnone
          by_cases hi : T.next_track_id = i
          · -- the freshly registered track carries `processing_started = false`
            obtain ⟨t1, ht1, hts⟩ : ∃ t1, findTrack i T1.tracks = some t1
                ∧ t1.processing_started = false := by
              refine ⟨newTrackFor T.next_track_id b fr c zo nw, ?_,
                newTrackFor_started _ _ _ _ _ _⟩
              rw [hT1, findTrack_register, hfind]
              simp [hi]
            have hfound := k1 i t1 ht1
            right
            unfold trackStarted
            rw [hfound]
            simp [hts]
          · have : trackStarted T1 i = none := by
              unfold trackStarted
              rw [hT1, findTrack_register, hfind]
              simp [hi]
            exact k6 i this
        · rw [k7, hT1]; exact (register_params T b fr c zo nw).2.2.1
        · rw [k8, hT1]; exact (register_params T b fr c zo nw).2.2.2.1
        · rw [k9, hT1]; exact (register_params T b fr c zo nw).1
        · rw [k10, hT1]; exact (register_params T b fr c zo nw).2.2.2.2

theorem trackStarted_some_elim {T : Tracker} {i : ℕ} {b : Bool}
    (h : trackStarted T i = some b) :
    ∃ t, findTrack i T.tracks = some t ∧ t.processing_started = b := by
  unfold trackStarted at h
  cases hf : findTrack i T.tracks with
  | none => rw [hf] at h; cases h
  | some t =>
      rw [hf] at h
      exact ⟨t, rfl, by simpa using h⟩

theorem trackStarted_of_findTrack {T : Tracker} {i : ℕ} {t : VehicleTrack}
    (h : findTrack i T.tracks = some t) :
    trackStarted T i = some t.processing_started := by
  unfold trackStarted
  rw [h]
  rfl

theorem matchPhase_facts (T : Tracker) (detections : List (BBox × ℚ))
    (frame : Frame) (zone : Option TriggerZone) (now : ℚ) :
    (∀ i b, trackStarted T i = some b →
        trackStarted (T.matchPhase detections frame zone now) i = some b)
    ∧ (T.matchPhase detections frame zone now).pending = T.pending
    ∧ T.next_track_id ≤ (T.matchPhase detections frame zone now).next_track_id
    ∧ (∀ i, i ∈ (T.matchPhase detections frame zone now).tracks.map Prod.fst →
        i ∈ T.tracks.map Prod.fst ∨ T.next_track_id ≤ i)
    ∧ (T.WF → (T.matchPhase detections frame zone now).WF)
    ∧ (T.matchPhase detections frame zone now).min_frames_in_zone
        = T.min_frames_in_zone
    ∧ (T.matchPhase detections frame zone now).min_frames_out_of_zone
        = T.min_frames_out_of_zone
    ∧ (T.matchPhase detections frame zone now).max_disappeared = T.max_disappeared
    ∧ (T.matchPhase detections frame zone now).fps = T.fps := by
  unfold Tracker.matchPhase
  by_cases ht : T.tracks = []
  · rw [if_pos ht]
    have hreg : RegisterLike (fun (acc : Tracker) (d : BBox × ℚ) =>
        acc.register_new_track d.1 frame d.2 zone now) :=
      fun acc a => Or.inr ⟨a.1, frame, a.2, zone, now, rfl⟩
    obtain ⟨k1, k2, k3, k4, k5, _, k7, k8, k9, k10⟩ :=
      foldl_register_facts hreg detections T
    refine ⟨?_, k2, k3, k4, k5, k7, k8, k9, k10⟩
    intro i b hb
    obtain ⟨t, hft, hts⟩ := trackStarted_some_elim hb
    rw [trackStarted_of_findTrack (k1 i t hft), hts]
  · rw [if_neg ht]
    simp only []
    have hreg2 : RegisterLike (fun (acc : Tracker) (j : ℕ) =>
        match detections.get? j with
        | some d => acc.register_new_track d.1 frame d.2 zone now
        | none => acc) := by
      intro acc a
      cases hd : detections.get? a with
      | none =>
          rw [List.get?_eq_getElem?] at hd
          exact Or.inl (by simp [hd])
      | some d =>
          rw [List.get?_eq_getElem?] at hd
          exact Or.inr ⟨d.1, frame, d.2, zone, now, by simp [hd]⟩
    set mds := matchDetections
      (computeDistances (T.tracks.map fun kt => trackCentroid kt.2)
        (detections.map fun d => (d.1.center.x, d.1.center.y)))
      (T.tracks.map Prod.fst) T.max_distance with hmds
    set A := applyMatches T mds.1 mds.2 detections frame now with hA
    set L := (List.range detections.length).filter fun j => ¬ j ∈ mds.2 with hL
    obtain ⟨a1, a2, a3, a4, a5, a6, a7, a8⟩ :=
      applyMatches_facts T mds.1 mds.2 detections frame now
    obtain ⟨k1, k2, k3, k4, k5, _, k7, k8, k9, k10⟩ :=
      foldl_register_facts hreg2 L A
    have hAWF : T.WF → A.WF := by
      intro hWF
      obtain ⟨hN, hB⟩ := hWF
      constructor
      · rw [hA, a1]; exact hN
      · rw [hA, a1, a3]; exact hB
    refine ⟨?_, ?_, ?_, ?_, ?_, ?_, ?_, ?_, ?_⟩
    · intro i b hb
      have hAb : trackStarted A i = some b := (a4 i).trans hb
      obtain ⟨t, hft, hts⟩ := trackStarted_some_elim hAb
      rw [trackStarted_of_findTrack (k1 i t hft), hts]
    · exact k2.trans a2
    · exact (le_of_eq a3.symm).trans k3
    · intro i hi
      rcases k4 i hi with h | h
      · rw [a1] at h
        exact Or.inl h
      · rw [a3] at h
        exact Or.inr h
    · exact fun h => k5 (hAWF h)
    · exact k7.trans a5
    · exact k8.trans a6
    · exact k9.trans a7
    · exact k10.trans a8

theorem usm_none_eq (T : Tracker) (now : ℚ) :
    T.update_state_machine none now = T := rfl

theorem usm_some_eq (T : Tracker) (z : TriggerZone) (now : ℚ) :
    T.update_state_machine (some z) now =
      { T with
        tracks := (runPendPhase (stateMachineStep T.min_frames_in_zone
          T.min_frames_out_of_zone z now) T.tracks).1
        pending := T.pending ++ (runPendPhase (stateMachineStep T.min_frames_in_zone
          T.min_frames_out_of_zone z now) T.tracks).2 } := rfl

theorem cleanup_eq (T : Tracker) (now : ℚ) :
    T.cleanup_old_tracks now =
      { T with
        tracks := (runCleanupPhase (cleanupStep T.max_disappeared_sec now) T.tracks).1
        pending := T.pending ++
          (runCleanupPhase (cleanupStep T.max_disappeared_sec now) T.tracks).2 } := rfl

theorem update_nonempty_eq (T : Tracker) (detections : List (BBox × ℚ))
    (frame : Frame) (zone : Option TriggerZone) (now : ℚ) (h : ¬ detections = []) :
    T.update detections frame zone now =
      ((({ T with pending := [] } : Tracker).matchPhase detections frame zone
        now).update_state_machine zone now).cleanup_old_tracks now := by
  unfold Tracker.update
  rw [if_neg h]

theorem trackStarted_usm_some (M : Tracker) (z : TriggerZone) (now : ℚ) (i : ℕ) :
    trackStarted (M.update_state_machine (some z) now) i
      = (findTrack i M.tracks).map fun t =>
          (stateMachineStep M.min_frames_in_zone M.min_frames_out_of_zone
            z now t).1.processing_started := by
  unfold trackStarted
  show (findTrack i (runPendPhase _ M.tracks).1).map _ = _
  rw [findTrack_runPendPhase, Option.map_map]
  rfl

theorem trackStarted_cleanup (S : Tracker) (now : ℚ) (i : ℕ)
    (hN : (S.tracks.map Prod.fst).Nodup) :
    trackStarted (S.cleanup_old_tracks now) i
      = match findTrack i S.tracks with
        | none => none
        | some t =>
            if (cleanupStep S.max_disappeared_sec now t).2.2 = true then none
            else some ((cleanupStep S.max_disappeared_sec now t).1).processing_started := by
  unfold trackStarted
  show (findTrack i (runCleanupPhase _ S.tracks).1).map _ = _
  rw [findTrack_runCleanupPhase hN]
  cases findTrack i S.tracks with
  | none => rfl
  | some t =>
      by_cases hr : (cleanupStep S.max_disappeared_sec now t).2.2 = true <;>
        simp [hr]

theorem usm_stage_facts (M : Tracker) (z : TriggerZone) (now : ℚ) (hMWF : M.WF) :
    (M.update_state_machine (some z) now).WF
    ∧ (M.update_state_machine (some z) now).next_track_id = M.next_track_id
    ∧ (M.update_state_machine (some z) now).tracks.map Prod.fst = M.tracks.map Prod.fst
    ∧ (∀ i, trackStarted M i = some true →
        trackStarted (M.update_state_machine (some z) now) i = some true)
    ∧ (∀ i b, trackStarted (M.update_state_machine (some z) now) i = some b →
        ∃ bM, trackStarted M i = some bM ∧ (bM = true → b = true))
    ∧ (M.update_state_machine (some z) now).pending = M.pending ++
        (runPendPhase (stateMachineStep M.min_frames_in_zone
          M.min_frames_out_of_zone z now) M.tracks).2
    ∧ (∀ i, ((runPendPhase (stateMachineStep M.min_frames_in_zone
        M.min_frames_out_of_zone z now) M.tracks).2).count i ≤ 1)
    ∧ (∀ i, i ∈ (runPendPhase (stateMachineStep M.min_frames_in_zone
        M.min_frames_out_of_zone z now) M.tracks).2 →
        trackStarted M i = some false
        ∧ trackStarted (M.update_state_machine (some z) now) i = some true) := by
  have hkeys : (M.update_state_machine (some z) now).tracks.map Prod.fst
      = M.tracks.map Prod.fst := by
    show ((runPendPhase _ M.tracks).1.map Prod.fst) = _
    exact runPendPhase_keys _ _
  refine ⟨⟨?_, ?_⟩, rfl, hkeys, ?_, ?_, rfl, ?_, ?_⟩
  · rw [hkeys]; exact hMWF.1
  · rw [hkeys]; exact hMWF.2
  · intro i hs
    obtain ⟨t, hft, hts⟩ := trackStarted_some_elim hs
    rw [trackStarted_usm_some, hft]
    have := (stateMachineStep_gate M.min_frames_in_zone M.min_frames_out_of_zone
      z now t).2 hts
    simp [this]
  · intro i b hb
    rw [trackStarted_usm_some] at hb
    cases hft : findTrack i M.tracks with
    | none => rw [hft] at hb; cases hb
    | some t =>
        rw [hft] at hb
        refine ⟨t.processing_started, trackStarted_of_findTrack hft, ?_⟩
        intro htrue
        have := (stateMachineStep_gate M.min_frames_in_zone M.min_frames_out_of_zone
          z now t).2 htrue
        have hb' : (stateMachineStep M.min_frames_in_zone M.min_frames_out_of_zone
            z now t).1.processing_started = b := by simpa using hb
        rw [← hb', this]
  · intro i
    exact count_runPendPhase_snd_le_one hMWF.1 i
  · intro i hmem
    obtain ⟨t, hft, hpend⟩ := mem_runPendPhase_snd_elim hMWF.1 hmem
    obtain ⟨hbefore, hafter⟩ := (stateMachineStep_gate M.min_frames_in_zone
      M.min_frames_out_of_zone z now t).1 hpend
    refine ⟨?_, ?_⟩
    · rw [trackStarted_of_findTrack hft, hbefore]
    · rw [trackStarted_usm_some, hft]
      simp [hafter]

theorem cleanup_stage_facts (S : Tracker) (now : ℚ) (hSWF : S.WF) :
    (S.cleanup_old_tracks now).WF
    ∧ (S.cleanup_old_tracks now).next_track_id = S.next_track_id
    ∧ (∀ i, i ∈ (S.cleanup_old_tracks now).tracks.map Prod.fst →
        i ∈ S.tracks.map Prod.fst)
    ∧ (∀ i, trackStarted S i = some true →
        trackStarted (S.cleanup_old_tracks now) i = some true
        ∨ trackStarted (S.cleanup_old_tracks now) i = none)
    ∧ (S.cleanup_old_tracks now).pending = S.pending ++
        (runCleanupPhase (cleanupStep S.max_disappeared_sec now) S.tracks).2
    ∧ (∀ i, ((runCleanupPhase (cleanupStep S.max_disappeared_sec now)
        S.tracks).2).count i ≤ 1)
    ∧ (∀ i, i ∈ (runCleanupPhase (cleanupStep S.max_disappeared_sec now) S.tracks).2 →
        trackStarted S i = some false
        ∧ (trackStarted (S.cleanup_old_tracks now) i = some true
            ∨ trackStarted (S.cleanup_old_tracks now) i = none)) := by
  have hkeys_sub : ((S.cleanup_old_tracks now).tracks.map Prod.fst).Sublist
      (S.tracks.map Prod.fst) := by
    show ((runCleanupPhase _ S.tracks).1.map Prod.fst).Sublist _
    exact runCleanupPhase_keys_sublist _ _
  have hmono : ∀ i, trackStarted S i = some true →
      trackStarted (S.cleanup_old_tracks now) i = some true
      ∨ trackStarted (S.cleanup_old_tracks now) i = none := by
    intro i hs
    obtain ⟨t, hft, hts⟩ := trackStarted_some_elim hs
    rw [trackStarted_cleanup S now i hSWF.1, hft]
    by_cases hr : (cleanupStep S.max_disappeared_sec now t).2.2 = true
    · right; simp [hr]
    · left
      have := (cleanupStep_gate S.max_disappeared_sec now t).2 hts
      simp [hr, this]
  refine ⟨⟨?_, ?_⟩, rfl, fun i hi => hkeys_sub.subset hi, hmono, rfl, ?_, ?_⟩
  · exact hSWF.1.sublist hkeys_sub
  · intro k hk
    exact hSWF.2 k (hkeys_sub.subset hk)
  · intro i
    exact count_runCleanupPhase_snd_le_one hSWF.1 i
  · intro i hmem
    obtain ⟨t, hft, hpend⟩ := mem_runCleanupPhase_snd_elim hSWF.1 hmem
    obtain ⟨hbefore, hafter⟩ := (cleanupStep_gate S.max_disappeared_sec now t).1 hpend
    refine ⟨?_, ?_⟩
    · rw [trackStarted_of_findTrack hft, hbefore]
    · rw [trackStarted_cleanup S now i hSWF.1, hft]
      by_cases hr : (cleanupStep S.max_disappeared_sec now t).2.2 = true
      · right; simp [hr]
      · left; simp [hr, hafter]

/-- All the per-update facts the one-way-gate invariant needs: `update`
preserves well-formedness, never lowers the id counter, introduces only fresh
ids, never resets a set gate, appends any id to the pending list at most
once, and appends an id only if its gate was not already set (setting it, or
deleting the track, in the process). -/
theorem update_facts (T : Tracker) (detections : List (BBox × ℚ)) (frame : Frame)
    (zone : Option TriggerZone) (now : ℚ) (hWF : T.WF) :
    (T.update detections frame zone now).WF
    ∧ T.next_track_id ≤ (T.update detections frame zone now).next_track_id
    ∧ (∀ i, i ∈ (T.update detections frame zone now).tracks.map Prod.fst →
        i ∈ T.tracks.map Prod.fst ∨ T.next_track_id ≤ i)
    ∧ (∀ i, trackStarted T i = some true →
        trackStarted (T.update detections frame zone now) i = some true
        ∨ trackStarted (T.update detections frame zone now) i = none)
    ∧ (∀ i, (T.update detections frame zone now).pending.count i ≤ 1)
    ∧ (∀ i, 1 ≤ (T.update detections frame zone now).pending.count i →
        trackStarted T i ≠ some true
        ∧ (trackStarted (T.update detections frame zone now) i = some true
            ∨ trackStarted (T.update detections frame zone now) i = none)
        ∧ i < (T.update detections frame zone now).next_track_id
        ∧ (i ∈ T.tracks.map Prod.fst ∨ T.next_track_id ≤ i)) := by
  by_cases hdet : detections = []
  · -- empty-detection branch: the disappearance path only
    subst hdet
    rw [update_empty_eq, handle_disappeared_tracks_eq]
    have hkeys : ∀ i, trackStarted
        (Tracker.handle_disappeared_tracks { T with pending := [] } now) i
        = (findTrack i T.tracks).map fun t =>
            (disappearedStep T.min_frames_out_of_zone now t).1.processing_started := by
      intro i
      unfold trackStarted
      show (findTrack i (runPendPhase _ T.tracks).1).map _ = _
      rw [findTrack_runPendPhase, Option.map_map]
      rfl
    rw [handle_disappeared_tracks_eq] at hkeys
    refine ⟨⟨?_, ?_⟩, le_refl _, ?_, ?_, ?_, ?_⟩
    · show ((runPendPhase _ T.tracks).1.map Prod.fst).Nodup
      rw [runPendPhase_keys]
      exact hWF.1
    · show ∀ k ∈ (runPendPhase _ T.tracks).1.map Prod.fst, k < T.next_track_id
      rw [runPendPhase_keys]
      exact hWF.2
    · intro i hi
      rw [show ({ T with
          tracks := (runPendPhase (disappearedStep T.min_frames_out_of_zone now) T.tracks).1
          pending := [] ++ (runPendPhase (disappearedStep T.min_frames_out_of_zone now)
            T.tracks).2 } : Tracker).tracks
        = (runPendPhase (disappearedStep T.min_frames_out_of_zone now) T.tracks).1
        from rfl, runPendPhase_keys] at hi
      exact Or.inl hi
    · intro i hs
      obtain ⟨t, hft, hts⟩ := trackStarted_some_elim hs
      left
      rw [hkeys i, hft]
      have := (disappearedStep_gate T.min_frames_out_of_zone now t).2 hts
      simp [this]
    · intro i
      show ([] ++ (runPendPhase _ T.tracks).2).count i ≤ 1
      rw [List.nil_append]
      exact count_runPendPhase_snd_le_one hWF.1 i
    · intro i hcount
      show _ ∧ _ ∧ i < T.next_track_id ∧ _
      rw [show (([] ++ (runPendPhase (disappearedStep T.min_frames_out_of_zone now)
          T.tracks).2) : List ℕ)
        = (runPendPhase (disappearedStep T.min_frames_out_of_zone now) T.tracks).2
        from rfl] at hcount
      have hmem : i ∈ (runPendPhase (disappearedStep T.min_frames_out_of_zone now)
          T.tracks).2 := List.count_pos_iff.mp hcount
      obtain ⟨t, hft, hpend⟩ := mem_runPendPhase_snd_elim hWF.1 hmem
      obtain ⟨hbefore, hafter⟩ :=
        (disappearedStep_gate T.min_frames_out_of_zone now t).1 hpend
      refine ⟨?_, ?_, ?_, ?_⟩
      · rw [trackStarted_of_findTrack hft, hbefore]
        simp
      · left
        rw [hkeys i, hft]
        simp [hafter]
      · exact hWF.2 i (findTrack_some_mem_keys hft)
      · exact Or.inl (findTrack_some_mem_keys hft)
  · -- non-empty branch: matching, state machine, cleanup
    rw [update_nonempty_eq T detections frame zone now hdet]
    set T0 : Tracker := { T with pending := [] } with hT0
    have hT0WF : T0.WF := hWF
    have hT0started : ∀ i, trackStarted T0 i = trackStarted T i := fun i => rfl
    obtain ⟨m1, m2, m3, m4, m5, _, _, _, _⟩ :=
      matchPhase_facts T0 detections frame zone now
    set M : Tracker := T0.matchPhase detections frame zone now with hM
    have hMWF : M.WF := m5 hT0WF
    have hMp : M.pending = [] := m2
    cases zone with
    | none =>
        rw [usm_none_eq]
        obtain ⟨c1, c2, c3, c4, c5, c6, c7⟩ := cleanup_stage_facts M now hMWF
        refine ⟨c1, ?_, ?_, ?_, ?_, ?_⟩
        · rw [c2]; exact m3
        · intro i hi
          exact m4 i (c3 i hi)
        · intro i hs
          exact c4 i (m1 i true hs)
        · intro i
          rw [c5, hMp, List.nil_append]
          exact c6 i
        · intro i hcount
          rw [c5, hMp, List.nil_append] at hcount
          have hmem := List.count_pos_iff.mp hcount
          obtain ⟨hMfalse, hafter⟩ := c7 i hmem
          obtain ⟨t, hft, _⟩ := trackStarted_some_elim hMfalse
          refine ⟨?_, hafter, ?_, ?_⟩
          · intro hcontra
            have := m1 i true hcontra
            rw [this] at hMfalse
            cases hMfalse
          · rw [c2]
            exact hMWF.2 i (findTrack_some_mem_keys hft)
          · exact m4 i (findTrack_some_mem_keys hft)
    | some z =>
        obtain ⟨s1, s2, s3, s4, s5, s6, s7, s8⟩ := usm_stage_facts M z now hMWF
        set S : Tracker := M.update_state_machine (some z) now with hS
        obtain ⟨c1, c2, c3, c4, c5, c6, c7⟩ := cleanup_stage_facts S now s1
        set ps1 := (runPendPhase (stateMachineStep M.min_frames_in_zone
          M.min_frames_out_of_zone z now) M.tracks).2 with hps1
        set ps2 := (runCleanupPhase (cleanupStep S.max_disappeared_sec now)
          S.tracks).2 with hps2
        refine ⟨c1, ?_, ?_, ?_, ?_, ?_⟩
        · rw [c2, s2]; exact m3
        · intro i hi
          have hiS := c3 i hi
          rw [s3] at hiS
          exact m4 i hiS
        · intro i hs
          exact c4 i (s4 i (m1 i true hs))
        · intro i
          rw [c5, s6, hMp, List.nil_append, List.count_append]
          rcases Nat.eq_zero_or_pos (ps1.count i) with hz | hp
          · rw [hz]
            have := c6 i
            omega
          · have hmem1 := List.count_pos_iff.mp hp
            have hStrue := (s8 i hmem1).2
            have hzero2 : ps2.count i = 0 := by
              by_contra hnz
              have hmem2 := List.count_pos_iff.mp (Nat.pos_of_ne_zero hnz)
              have hSfalse := (c7 i hmem2).1
              rw [hStrue] at hSfalse
              cases hSfalse
            have := s7 i
            omega
        · intro i hcount
          rw [c5, s6, hMp, List.nil_append, List.count_append] at hcount
          have hcases : 0 < ps1.count i ∨ 0 < ps2.count i := by omega
          rcases hcases with hp | hp
          · have hmem1 := List.count_pos_iff.mp hp
            obtain ⟨hMfalse, hStrue⟩ := s8 i hmem1
            obtain ⟨t, hft, _⟩ := trackStarted_some_elim hMfalse
            refine ⟨?_, c4 i hStrue, ?_, ?_⟩
            · intro hcontra
              have := m1 i true hcontra
              rw [this] at hMfalse
              cases hMfalse
            · rw [c2, s2]
              exact hMWF.2 i (findTrack_some_mem_keys hft)
            · exact m4 i (findTrack_some_mem_keys hft)
          · have hmem2 := List.count_pos_iff.mp hp
            obtain ⟨hSfalse, hafter⟩ := c7 i hmem2
            obtain ⟨bM, hMb, himp⟩ := s5 i false hSfalse
            have hbMfalse : bM = false := by
              cases bM
              · rfl
              · exact absurd (himp rfl) (by simp)
            obtain ⟨t, hft, _⟩ := trackStarted_some_elim hMb
            refine ⟨?_, hafter, ?_, ?_⟩
            · intro hcontra
              have := m1 i true hcontra
              rw [this] at hMb
              rw [hbMfalse] at hMb
              cases hMb
            · rw [c2, s2]
              exact hMWF.2 i (findTrack_some_mem_keys hft)
            · exact m4 i (findTrack_some_mem_keys hft)

/-- Id `i` is settled in tracker `T`: either its gate is set, or the id was
consumed and the track is gone (ids are never reused). -/
def DoneWith (T : Tracker) (i : ℕ) : Prop :=
  trackStarted T i = some true ∨ (i < T.next_track_id ∧ trackStarted T i = none)

theorem findTrack_isSome_of_mem {i : ℕ} {ts : List (ℕ × VehicleTrack)}
    (h : i ∈ ts.map Prod.fst) : ∃ t, findTrack i ts = some t := by
  cases hf : findTrack i ts with
  | some t => exact ⟨t, rfl⟩
  | none =>
      exfalso
      obtain ⟨kt, hkt, hfst⟩ := List.mem_map.mp h
      unfold findTrack at hf
      have hfind : (List.find? (fun kt => decide (kt.1 = i)) ts) = none := by
        cases hh : List.find? (fun kt => decide (kt.1 = i)) ts with
        | none => rfl
        | some x => rw [hh] at hf; cases hf
      rw [List.find?_eq_none] at hfind
      exact absurd (by simpa using hfst) (by simpa using hfind kt hkt)

theorem update_done (T : Tracker) (detections : List (BBox × ℚ)) (frame : Frame)
    (zone : Option TriggerZone) (now : ℚ) (hWF : T.WF) (i : ℕ)
    (hD : DoneWith T i) :
    DoneWith (T.update detections frame zone now) i
    ∧ (T.update detections frame zone now).pending.count i = 0 := by
  obtain ⟨u1, u2, u3, u4, u5, u6⟩ := update_facts T detections frame zone now hWF
  rcases hD with hTrue | ⟨hlt, hnone⟩
  · constructor
    · rcases u4 i hTrue with h | h
      · exact Or.inl h
      · obtain ⟨t, hft, _⟩ := trackStarted_some_elim hTrue
        exact Or.inr ⟨lt_of_lt_of_le (hWF.2 i (findTrack_some_mem_keys hft)) u2, h⟩
    · by_contra hnz
      exact (u6 i (Nat.one_le_iff_ne_zero.mpr hnz)).1 hTrue
  · constructor
    · cases hT' : trackStarted (T.update detections frame zone now) i with
      | none => exact Or.inr ⟨lt_of_lt_of_le hlt u2, hT'⟩
      | some b =>
          exfalso
          obtain ⟨t, hft, _⟩ := trackStarted_some_elim hT'
          rcases u3 i (findTrack_some_mem_keys hft) with h | h
          · obtain ⟨t0, hft0⟩ := findTrack_isSome_of_mem h
            rw [trackStarted_of_findTrack hft0] at hnone
            cases hnone
          · exact absurd h (by omega)
    · by_contra hnz
      obtain ⟨_, _, _, horig⟩ := u6 i (Nat.one_le_iff_ne_zero.mpr hnz)
      rcases horig with h | h
      · obtain ⟨t0, hft0⟩ := findTrack_isSome_of_mem h
        rw [trackStarted_of_findTrack hft0] at hnone
        cases hnone
      · exact absurd h (by omega)

theorem runUpdates_WF (inputs : List UpdateInput) (T : Tracker) (hWF : T.WF) :
    (runUpdates T inputs).WF := by
  induction inputs generalizing T with
  | nil => exact hWF
  | cons inp rest ih =>
      exact ih _ (update_facts T inp.detections inp.frame inp.zone inp.now hWF).1

theorem runUpdates_done (inputs : List UpdateInput) (T : Tracker) (i : ℕ)
    (hWF : T.WF) (hD : DoneWith T i) :
    DoneWith (runUpdates T inputs) i ∧ totalAppends T inputs i = 0 := by
  induction inputs generalizing T with
  | nil => exact ⟨hD, rfl⟩
  | cons inp rest ih =>
      obtain ⟨hD', hc⟩ :=
        update_done T inp.detections inp.frame inp.zone inp.now hWF i hD
      have hWF' := (update_facts T inp.detections inp.frame inp.zone inp.now hWF).1
      obtain ⟨hDfin, hrest⟩ := ih _ hWF' hD'
      refine ⟨hDfin, ?_⟩
      show (T.update inp.detections inp.frame inp.zone inp.now).pending.count i
          + totalAppends (T.update inp.detections inp.frame inp.zone inp.now) rest i = 0
      omega

theorem totalAppends_le_one (inputs : List UpdateInput) (T : Tracker) (i : ℕ)
    (hWF : T.WF) : totalAppends T inputs i ≤ 1 := by
  induction inputs generalizing T with
  | nil => exact Nat.zero_le 1
  | cons inp rest ih =>
      obtain ⟨u1, u2, u3, u4, u5, u6⟩ :=
        update_facts T inp.detections inp.frame inp.zone inp.now hWF
      have hstep : totalAppends T (inp :: rest) i
          = (T.update inp.detections inp.frame inp.zone inp.now).pending.count i
            + totalAppends (T.update inp.detections inp.frame inp.zone inp.now)
              rest i := rfl
      rw [hstep]
      by_cases hpos : 1 ≤ (T.update inp.detections inp.frame inp.zone
          inp.now).pending.count i
      · obtain ⟨_, hafter, hlt, _⟩ := u6 i hpos
        have hD' : DoneWith (T.update inp.detections inp.frame inp.zone inp.now) i := by
          rcases hafter with h | h
          · exact Or.inl h
          · exact Or.inr ⟨hlt, h⟩
        obtain ⟨_, hz⟩ := runUpdates_done rest _ i u1 hD'
        have := u5 i
        omega
      · have hz : (T.update inp.detections inp.frame inp.zone inp.now).pending.count i
            = 0 := by omega
        have := ih _ u1
        omega

/-- C1: from a fresh tracker, over any sequence of `update()` calls and for
every track id, `processing_started` is never reset — once observed `some
true` it can only remain true or the track be deleted (and the id is never
reused) — and the id is appended to the pending ready list (the set drained
by `get_tracks_ready_for_processing`) at most once in total, across all
three trigger paths (disappearance, zone-exit, cleanup force-flush), also
when several of them run in the same update. -/
theorem processing_started_one_way (md : ℕ) (mdist : ℚ) (mi mo : ℕ) (fps : ℚ)
    (inputs₁ inputs₂ : List UpdateInput) (i : ℕ) :
    (trackStarted (runUpdates (mkTracker md mdist mi mo fps) inputs₁) i = some true →
      trackStarted (runUpdates (runUpdates (mkTracker md mdist mi mo fps) inputs₁)
        inputs₂) i ≠ some false)
    ∧ totalAppends (mkTracker md mdist mi mo fps) (inputs₁ ++ inputs₂) i ≤ 1 := by
  constructor
  · intro hs
    have hWF1 : (runUpdates (mkTracker md mdist mi mo fps) inputs₁).WF :=
      runUpdates_WF inputs₁ _ (mkTracker_WF md mdist mi mo fps)
    obtain ⟨hDfin, _⟩ := runUpdates_done inputs₂ _ i hWF1 (Or.inl hs)
    rcases hDfin with h | ⟨_, h⟩ <;> simp [h]
  · exact totalAppends_le_one (inputs₁ ++ inputs₂) _ i (mkTracker_WF md mdist mi mo fps)

/-- Witness for C1: a track born in the square zone, then five empty-detection
frames — the disappearance path fires exactly once; the gate reads true after
the first six updates, stays true one update later, and the id was appended
exactly once over the whole run. -/
theorem processing_started_one_way_witness :
    trackStarted (runUpdates (mkTracker 30 100 3 5 2)
        [⟨[(⟨2, 2, 8, 8⟩, 9/10)], ⟨480, 640, 0⟩,
            some ⟨[(0, 0), (10, 0), (10, 10), (0, 10)], "polygon"⟩, 0⟩,
          ⟨[], ⟨480, 640, 1⟩, some ⟨[(0, 0), (10, 0), (10, 10), (0, 10)], "polygon"⟩, 1⟩,
          ⟨[], ⟨480, 640, 2⟩, some ⟨[(0, 0), (10, 0), (10, 10), (0, 10)], "polygon"⟩, 2⟩,
          ⟨[], ⟨480, 640, 3⟩, some ⟨[(0, 0), (10, 0), (10, 10), (0, 10)], "polygon"⟩, 3⟩,
          ⟨[], ⟨480, 640, 4⟩, some ⟨[(0, 0), (10, 0), (10, 10), (0, 10)], "polygon"⟩, 4⟩,
          ⟨[], ⟨480, 640, 5⟩, some ⟨[(0, 0), (10, 0), (10, 10), (0, 10)], "polygon"⟩, 5⟩]) 0
      = some true
    ∧ trackStarted (runUpdates (runUpdates (mkTracker 30 100 3 5 2)
        [⟨[(⟨2, 2, 8, 8⟩, 9/10)], ⟨480, 640, 0⟩,
            some ⟨[(0, 0), (10, 0), (10, 10), (0, 10)], "polygon"⟩, 0⟩,
          ⟨[], ⟨480, 640, 1⟩, some ⟨[(0, 0), (10, 0), (10, 10), (0, 10)], "polygon"⟩, 1⟩,
          ⟨[], ⟨480, 640, 2⟩, some ⟨[(0, 0), (10, 0), (10, 10), (0, 10)], "polygon"⟩, 2⟩,
          ⟨[], ⟨480, 640, 3⟩, some ⟨[(0, 0), (10, 0), (10, 10), (0, 10)], "polygon"⟩, 3⟩,
          ⟨[], ⟨480, 640, 4⟩, some ⟨[(0, 0), (10, 0), (10, 10), (0, 10)], "polygon"⟩, 4⟩,
          ⟨[], ⟨480, 640, 5⟩, some ⟨[(0, 0), (10, 0), (10, 10), (0, 10)], "polygon"⟩, 5⟩])
        [⟨[], ⟨480, 640, 6⟩, some ⟨[(0, 0), (10, 0), (10, 10), (0, 10)], "polygon"⟩, 6⟩]) 0
      ≠ some false
    ∧ totalAppends (mkTracker 30 100 3 5 2)
        ([⟨[(⟨2, 2, 8, 8⟩, 9/10)], ⟨480, 640, 0⟩,
            some ⟨[(0, 0), (10, 0), (10, 10), (0, 10)], "polygon"⟩, 0⟩,
          ⟨[], ⟨480, 640, 1⟩, some ⟨[(0, 0), (10, 0), (10, 10), (0, 10)], "polygon"⟩, 1⟩,
          ⟨[], ⟨480, 640, 2⟩, some ⟨[(0, 0), (10, 0), (10, 10), (0, 10)], "polygon"⟩, 2⟩,
          ⟨[], ⟨480, 640, 3⟩, some ⟨[(0, 0), (10, 0), (10, 10), (0, 10)], "polygon"⟩, 3⟩,
          ⟨[], ⟨480, 640, 4⟩, some ⟨[(0, 0), (10, 0), (10, 10), (0, 10)], "polygon"⟩, 4⟩,
          ⟨[], ⟨480, 640, 5⟩, some ⟨[(0, 0), (10, 0), (10, 10), (0, 10)], "polygon"⟩, 5⟩]
          ++ [⟨[], ⟨480, 640, 6⟩, some ⟨[(0, 0), (10, 0), (10, 10), (0, 10)], "polygon"⟩, 6⟩])
        0 ≤ 1 := by
  have hstarted : trackStarted (runUpdates (mkTracker 30 100 3 5 2)
      [⟨[(⟨2, 2, 8, 8⟩, 9/10)], ⟨480, 640, 0⟩,
          some ⟨[(0, 0), (10, 0), (10, 10), (0, 10)], "polygon"⟩, 0⟩,
        ⟨[], ⟨480, 640, 1⟩, some ⟨[(0, 0), (10, 0), (10, 10), (0, 10)], "polygon"⟩, 1⟩,
        ⟨[], ⟨480, 640, 2⟩, some ⟨[(0, 0), (10, 0), (10, 10), (0, 10)], "polygon"⟩, 2⟩,
        ⟨[], ⟨480, 640, 3⟩, some ⟨[(0, 0), (10, 0), (10, 10), (0, 10)], "polygon"⟩, 3⟩,
        ⟨[], ⟨480, 640, 4⟩, some ⟨[(0, 0), (10, 0), (10, 10), (0, 10)], "polygon"⟩, 4⟩,
        ⟨[], ⟨480, 640, 5⟩, some ⟨[(0, 0), (10, 0), (10, 10), (0, 10)], "polygon"⟩, 5⟩]) 0
      = some true := by decide
  have h := processing_started_one_way 30 100 3 5 2
    [⟨[(⟨2, 2, 8, 8⟩, 9/10)], ⟨480, 640, 0⟩,
        some ⟨[(0, 0), (10, 0), (10, 10), (0, 10)], "polygon"⟩, 0⟩,
      ⟨[], ⟨480, 640, 1⟩, some ⟨[(0, 0), (10, 0), (10, 10), (0, 10)], "polygon"⟩, 1⟩,
      ⟨[], ⟨480, 640, 2⟩, some ⟨[(0, 0), (10, 0), (10, 10), (0, 10)], "polygon"⟩, 2⟩,
      ⟨[], ⟨480, 640, 3⟩, some ⟨[(0, 0), (10, 0), (10, 10), (0, 10)], "polygon"⟩, 3⟩,
      ⟨[], ⟨480, 640, 4⟩, some ⟨[(0, 0), (10, 0), (10, 10), (0, 10)], "polygon"⟩, 4⟩,
      ⟨[], ⟨480, 640, 5⟩, some ⟨[(0, 0), (10, 0), (10, 10), (0, 10)], "polygon"⟩, 5⟩]
    [⟨[], ⟨480, 640, 6⟩, some ⟨[(0, 0), (10, 0), (10, 10), (0, 10)], "polygon"⟩, 6⟩] 0
  exact ⟨hstarted, h.1 hstarted, h.2⟩

/-! ### Best-shot selection (C5) -/

/-- The score of the `k`-th entry of a zipped (bbox, confidence) list. -/
noncomputable def pairScore (fw fh : ℚ) (l : List (BBox × ℚ)) (k : ℕ) : ℝ :=
  bestShotScore fw fh (l.getD k (⟨0, 0, 0, 0⟩, 0)).1 (l.getD k (⟨0, 0, 0, 0⟩, 0)).2

/-- The score of the `k`-th retained entry of a track's histories. -/
noncomputable def trackShotScore (t : VehicleTrack) (k : ℕ) : ℝ :=
  pairScore (t.frame_history.headD ⟨0, 0, 0⟩).width
    (t.frame_history.headD ⟨0, 0, 0⟩).height
    (t.bbox_history.zip t.confidence_history) k

/-- Invariant of the strict-improvement selection fold: the running score
never decreases, bounds every visited score from above, and whenever it
strictly improved, it is attained at the reported index. -/
theorem bestShotFold_aux (fw fh : ℚ) (l : List (BBox × ℚ)) :
    ∀ (start : ℕ) (acc : ℕ × ℝ),
      acc.2 ≤ ((l.enumFrom start).foldl (bestShotStep fw fh) acc).2
      ∧ (∀ k, k < l.length →
          pairScore fw fh l k ≤ ((l.enumFrom start).foldl (bestShotStep fw fh) acc).2)
      ∧ (((l.enumFrom start).foldl (bestShotStep fw fh) acc) = acc
        ∨ ∃ k, k < l.length
            ∧ ((l.enumFrom start).foldl (bestShotStep fw fh) acc).1 = start + k
            ∧ ((l.enumFrom start).foldl (bestShotStep fw fh) acc).2 = pairScore fw fh l k
            ∧ acc.2 < ((l.enumFrom start).foldl (bestShotStep fw fh) acc).2) := by
  induction l with
  | nil =>
      intro start acc
      exact ⟨le_refl _, by simp, Or.inl rfl⟩
  | cons p rest ih =>
      intro start acc
      have hcons : (p :: rest).enumFrom start = (start, p) :: rest.enumFrom (start + 1) :=
        rfl
      rw [hcons, List.foldl_cons]
      by_cases himp : acc.2 < bestShotScore fw fh p.1 p.2
      · have ha : bestShotStep fw fh acc (start, p)
            = (start, bestShotScore fw fh p.1 p.2) := by
          rw [bestShotStep, if_pos himp]
        rw [ha]
        obtain ⟨ih1, ih2, ih3⟩ := ih (start + 1) (start, bestShotScore fw fh p.1 p.2)
        refine ⟨le_of_lt (lt_of_lt_of_le himp ih1), ?_, ?_⟩
        · intro k hk
          cases k with
          | zero => exact ih1
          | succ k' =>
              have hk' : k' < rest.length := by
                simpa using Nat.lt_of_succ_lt_succ hk
              exact ih2 k' hk'
        · rcases ih3 with heq | ⟨k, hk, h1, h2, h3⟩
          · right
            refine ⟨0, by simp, ?_, ?_, ?_⟩
            · rw [heq]
              rfl
            · rw [heq]
              rfl
            · rw [heq]
              exact himp
          · right
            refine ⟨k + 1, by simpa using Nat.succ_lt_succ hk, ?_, ?_, ?_⟩
            · rw [h1]
              omega
            · rw [h2]
              rfl
            · exact lt_of_lt_of_le himp ih1
      · have ha : bestShotStep fw fh acc (start, p) = acc := by
          rw [bestShotStep, if_neg himp]
        rw [ha]
        obtain ⟨ih1, ih2, ih3⟩ := ih (start + 1) acc
        refine ⟨ih1, ?_, ?_⟩
        · intro k hk
          cases k with
          | zero => exact le_trans (le_of_not_lt himp) ih1
          | succ k' =>
              have hk' : k' < rest.length := by
                simpa using Nat.lt_of_succ_lt_succ hk
              exact ih2 k' hk'
        · rcases ih3 with heq | ⟨k, hk, h1, h2, h3⟩
          · exact Or.inl heq
          · right
            refine ⟨k + 1, by simpa using Nat.succ_lt_succ hk, ?_, ?_, h3⟩
            · rw [h1]
              omega
            · rw [h2]
              rfl

/-- C5 (amended): for a track whose three histories have the same nonzero
length and whose retained entries include one of positive composite score,
`get_best_shot` returns the frame/bbox pair at an index maximizing the score
`0.5·normalized area + 0.3·confidence + 0.2·(1 − center distance/diagonal)`;
when the maximum score is not positive the loop's zero-initialized running
best never updates and index 0 is returned instead (see the counterexample),
and an empty history returns none. -/
theorem get_best_shot_argmax_of_pos (t : VehicleTrack)
    (hf : t.frame_history.length = t.bbox_history.length)
    (hc : t.confidence_history.length = t.bbox_history.length)
    (hne : t.bbox_history ≠ [])
    (hpos : ∃ k, k < t.bbox_history.length ∧ 0 < trackShotScore t k) :
    (∃ k, k < t.bbox_history.length
      ∧ t.get_best_shot = some (t.frame_history.getD k ⟨0, 0, 0⟩,
          t.bbox_history.getD k ⟨0, 0, 0, 0⟩)
      ∧ ∀ j, j < t.bbox_history.length → trackShotScore t j ≤ trackShotScore t k)
    ∧ (∀ t' : VehicleTrack, t'.bbox_history = [] → t'.get_best_shot = none) := by
  constructor
  · have hplen : (t.bbox_history.zip t.confidence_history).length
        = t.bbox_history.length := by
      rw [List.length_zip, hc, min_self]
    obtain ⟨a1, a2, a3⟩ := bestShotFold_aux (t.frame_history.headD ⟨0, 0, 0⟩).width
      (t.frame_history.headD ⟨0, 0, 0⟩).height
      (t.bbox_history.zip t.confidence_history) 0 (0, 0)
    obtain ⟨k0, hk0, hk0pos⟩ := hpos
    rcases a3 with heq | ⟨k, hk, h1, h2, h3⟩
    · exfalso
      have hbound := a2 k0 (hplen ▸ hk0)
      rw [heq] at hbound
      exact absurd hk0pos (not_lt.mpr hbound)
    · have hkb : k < t.bbox_history.length := hplen ▸ hk
      have hkf : k < t.frame_history.length := by
        rw [hf]
        exact hkb
      refine ⟨k, hkb, ?_, ?_⟩
      · have hcond : ¬ (t.bbox_history = [] ∨ t.frame_history = []) := by
          push_neg
          refine ⟨hne, ?_⟩
          intro hcontra
          apply hne
          apply List.eq_nil_of_length_eq_zero
          rw [hcontra] at hf
          simpa using hf.symm
        have hidx : (bestShotFold (t.frame_history.headD ⟨0, 0, 0⟩).width
            (t.frame_history.headD ⟨0, 0, 0⟩).height
            (t.bbox_history.zip t.confidence_history)).1 = k := by
          show ((((t.bbox_history.zip t.confidence_history).enumFrom 0).foldl
            (bestShotStep (t.frame_history.headD ⟨0, 0, 0⟩).width
              (t.frame_history.headD ⟨0, 0, 0⟩).height) (0, 0)).1) = k
          rw [h1]
          exact Nat.zero_add k
        have hgf : t.frame_history.get? k = some (t.frame_history.getD k ⟨0, 0, 0⟩) := by
          rw [List.get?_eq_getElem?, List.getElem?_eq_getElem hkf,
            List.getD_eq_getElem _ _ hkf]
        have hgb : t.bbox_history.get? k
            = some (t.bbox_history.getD k ⟨0, 0, 0, 0⟩) := by
          rw [List.get?_eq_getElem?, List.getElem?_eq_getElem hkb,
            List.getD_eq_getElem _ _ hkb]
        unfold VehicleTrack.get_best_shot
        rw [if_neg hcond]
        simp only [hidx, hgf, hgb]
      · intro j hj
        have := a2 j (hplen ▸ hj)
        rw [h2] at this
        exact this
  · intro t' ht'
    unfold VehicleTrack.get_best_shot
    rw [if_pos (Or.inl ht')]

theorem bestShotScore_far : bestShotScore 640 480 ⟨1600, 1200, 1600, 1200⟩ 0
    = -(1/5) := by
  unfold bestShotScore BBox.area BBox.center
  push_cast
  norm_num
  rw [show (2560000 : ℝ) = 1600 ^ 2 by norm_num,
    show (640000 : ℝ) = 800 ^ 2 by norm_num,
    Real.sqrt_sq (by norm_num : (0:ℝ) ≤ 1600),
    Real.sqrt_sq (by norm_num : (0:ℝ) ≤ 800)]
  norm_num

theorem bestShotScore_mid : bestShotScore 640 480 ⟨960, 720, 960, 720⟩ 0 = 0 := by
  unfold bestShotScore BBox.area BBox.center
  push_cast
  norm_num

/-- Counterexample for C5: a two-entry history whose scores are −0.2 and 0.
All scores are nonpositive, so the zero-initialized running best never
updates: `get_best_shot` returns the entry at index 0 even though index 1 has
the strictly larger score, so the returned pair is not at a maximizing index. -/
theorem best_shot_not_argmax_nonpositive :
    VehicleTrack.get_best_shot
        { track_id := 0
          bbox_history := [⟨1600, 1200, 1600, 1200⟩, ⟨960, 720, 960, 720⟩]
          frame_history := [⟨480, 640, 0⟩, ⟨480, 640, 1⟩]
          confidence_history := [0, 0]
          first_seen := 0
          last_seen := 0 }
      = some (⟨480, 640, 0⟩, ⟨1600, 1200, 1600, 1200⟩)
    ∧ trackShotScore
        { track_id := 0
          bbox_history := [⟨1600, 1200, 1600, 1200⟩, ⟨960, 720, 960, 720⟩]
          frame_history := [⟨480, 640, 0⟩, ⟨480, 640, 1⟩]
          confidence_history := [0, 0]
          first_seen := 0
          last_seen := 0 } 0
      < trackShotScore
        { track_id := 0
          bbox_history := [⟨1600, 1200, 1600, 1200⟩, ⟨960, 720, 960, 720⟩]
          frame_history := [⟨480, 640, 0⟩, ⟨480, 640, 1⟩]
          confidence_history := [0, 0]
          first_seen := 0
          last_seen := 0 } 1
    ∧ ((⟨480, 640, 0⟩ : Frame), (⟨1600, 1200, 1600, 1200⟩ : BBox))
        ≠ ((⟨480, 640, 1⟩ : Frame), (⟨960, 720, 960, 720⟩ : BBox)) := by
  have hstep0 : bestShotStep 640 480 (0, 0) (0, (⟨1600, 1200, 1600, 1200⟩, 0))
      = (0, 0) := by
    rw [bestShotStep, if_neg]
    rw [bestShotScore_far]
    norm_num
  have hstep1 : bestShotStep 640 480 (0, 0) (1, (⟨960, 720, 960, 720⟩, 0))
      = (0, 0) := by
    rw [bestShotStep, if_neg]
    rw [bestShotScore_mid]
    norm_num
  have hfold : bestShotFold 640 480
      [(⟨1600, 1200, 1600, 1200⟩, 0), (⟨960, 720, 960, 720⟩, 0)] = (0, 0) := by
    show bestShotStep 640 480 (bestShotStep 640 480 (0, 0)
      (0, (⟨1600, 1200, 1600, 1200⟩, 0))) (1, (⟨960, 720, 960, 720⟩, 0)) = (0, 0)
    rw [hstep0, hstep1]
  refine ⟨?_, ?_, ?_⟩
  · unfold VehicleTrack.get_best_shot
    rw [if_neg (by simp)]
    show (match (([⟨480, 640, 0⟩, ⟨480, 640, 1⟩] : List Frame)).get?
        (bestShotFold 640 480
          [(⟨1600, 1200, 1600, 1200⟩, 0), (⟨960, 720, 960, 720⟩, 0)]).1,
        (([⟨1600, 1200, 1600, 1200⟩, ⟨960, 720, 960, 720⟩] : List BBox)).get?
        (bestShotFold 640 480
          [(⟨1600, 1200, 1600, 1200⟩, 0), (⟨960, 720, 960, 720⟩, 0)]).1 with
      | some f, some b => some (f, b)
      | _, _ => none)
      = some ((⟨480, 640, 0⟩ : Frame), (⟨1600, 1200, 1600, 1200⟩ : BBox))
    rw [hfold]
    rfl
  · show bestShotScore 640 480 ⟨1600, 1200, 1600, 1200⟩ 0
        < bestShotScore 640 480 ⟨960, 720, 960, 720⟩ 0
    rw [bestShotScore_far, bestShotScore_mid]
    norm_num
  · intro h
    have := congrArg (fun p => p.1.tag) h
    simp at this

/-- The track of the C5 witness: one full-frame, centered, confidence-1
detection, whose score is exactly 1. -/
def c5Track : VehicleTrack :=
  { track_id := 0
    bbox_history := [⟨0, 0, 640, 480⟩]
    frame_history := [⟨480, 640, 5⟩]
    confidence_history := [1]
    first_seen := 0
    last_seen := 0 }

theorem bestShotScore_full : bestShotScore 640 480 ⟨0, 0, 640, 480⟩ 1 = 1 := by
  unfold bestShotScore BBox.area BBox.center
  push_cast
  norm_num

/-- Witness for C5's amended hypotheses at a concrete one-entry track of
score 1. -/
theorem get_best_shot_argmax_of_pos_witness :
    ∃ k, k < c5Track.bbox_history.length
      ∧ c5Track.get_best_shot = some (c5Track.frame_history.getD k ⟨0, 0, 0⟩,
          c5Track.bbox_history.getD k ⟨0, 0, 0, 0⟩)
      ∧ ∀ j, j < c5Track.bbox_history.length →
          trackShotScore c5Track j ≤ trackShotScore c5Track k := by
  have hpos : 0 < trackShotScore c5Track 0 := by
    show (0:ℝ) < bestShotScore 640 480 ⟨0, 0, 640, 480⟩ 1
    rw [bestShotScore_full]
    norm_num
  exact (get_best_shot_argmax_of_pos c5Track rfl rfl (by simp [c5Track])
    ⟨0, by norm_num [c5Track], hpos⟩).1

end RatReducible

end Alpr
